import Mathlib

/-!
# Topic-dispatching Kafka consumer (`messaging/kafka-sarama/consumer.go`)

A shallow embedding of the consumer facade: the handler registry
(`Kafka.AddTopicListener`), the session handler (`Consumer.Setup`,
`Consumer.Cleanup`, `Consumer.ConsumeClaim`), the background dispatch loop
spawned by `Kafka.Listen` and the foreground controller of `Kafka.Listen`.

Conventions of the embedding.

* A Go callback is a reference to code the package does not own.  Callbacks
  are named by an arbitrary type `H`; what a callback does when it is invoked
  is given by an interpretation `H → Bytes → W → error × W` over an
  arbitrary world state `W`, so that a callback may return different results
  on different invocations.
* A Go `error` is an optional `GoError`, `none` being `nil`.
* Everything the package does to its collaborators (the session, the logger,
  the group client, the callbacks, the cancellation function) is recorded as
  an `Effect`, in program order.
* A channel made by `make(chan bool)` is an index into a heap of flags, the
  flag telling whether the channel has been closed.
-/

namespace KafkaSarama

/-! ## Data model -/

/-- Payload bytes of a message (`[]byte`), one number per byte. -/
abbrev Bytes := List Nat

/-- A Go `error` value that is not `nil`.  `contextCanceled` is the failure a
cancelled context reports (`context.Canceled`); every other failure is
`other`. -/
inductive GoError where
  | contextCanceled
  | other (msg : String)
  deriving DecidableEq, Repr

/-- A Go value of type `error`: `none` is `nil`. -/
abbrev error := Option GoError

/-- The fields of `sarama.ConsumerMessage` the package reads or that tell two
messages apart. -/
structure Message where
  Topic : String
  Partition : Nat
  Offset : Nat
  Key : Bytes
  Value : Bytes
  deriving DecidableEq, Repr

/-- A Go `map[string][]CallbackFunc` that has been allocated: the entries in
the order the keys were first stored. -/
abbrev GoMap (H : Type) := List (String × List H)

/-- Reading `m[k]`: the stored slice, or the zero value (the empty slice) when
the key is absent. -/
def GoMap.get {H : Type} : GoMap H → String → List H
  | [], _ => []
  | (k', v) :: rest, k => if k' = k then v else GoMap.get rest k

/-- Writing `m[k] = v`: replaces the entry of `k`, or adds one. -/
def GoMap.set {H : Type} : GoMap H → String → List H → GoMap H
  | [], k, v => [(k, v)]
  | (k', v') :: rest, k, v =>
    if k' = k then (k, v) :: rest else (k', v') :: GoMap.set rest k v

/-- The keys of the map. -/
def GoMap.keys {H : Type} (m : GoMap H) : List String :=
  m.map Prod.fst

/-- The fields of `Option` used by the consumer: the subscription list and the
broker hosts.  (The logger `Option.Log` is a collaborator; calls to it are
recorded as effects.) -/
structure KafkaOption where
  ListTopics : List String
  Host : List String
  deriving DecidableEq, Repr

/-- The registry part of `Kafka`: the callback map and the options.  The map is
allocated by the constructor of `Kafka`; the mutex `mu` only serialises
`AddTopicListener` calls and has no state of its own here. -/
structure Kafka (H : Type) where
  CallbackFunctions : GoMap H
  Option : KafkaOption

/-- The registry as created: no callbacks, no subscriptions. -/
def Kafka.empty (H : Type) (host : List String) : Kafka H :=
  { CallbackFunctions := [], Option := { ListTopics := [], Host := host } }

/-- The struct `Consumer`: the `ready` channel (an index into the channel heap),
the callback map and the options shared with `Kafka`. -/
structure Consumer (H : Type) where
  ready : Nat
  CallbackFunctions : GoMap H
  Option : KafkaOption

/-- What the package does to its collaborators, in program order. -/
inductive Effect (H : Type) where
  /-- The call `session.MarkMessage(message, "")`. -/
  | markMessage (m : Message)
  /-- The call `callback(message.Value)`, with the value it returned. -/
  | callback (h : H) (value : Bytes) (result : error)
  /-- The call `consumer.Option.Log.Error(err)`. -/
  | logError (e : GoError)
  /-- The call `l.Consumer.Consume(ctx, topics, &consumer)`, with the `ready`
  channel the handler holds when the call is made. -/
  | consume (topics : List String) (ready : Nat)
  /-- The statement `close(consumer.ready)` on a channel that was open. -/
  | closeReady (chan : Nat)
  /-- The statement `go func() { ... }()`: the dispatch loop is started. -/
  | spawnLoop
  /-- The call `log.Printf("Sarama consumer up and running! ...", l.Option.Host)`. -/
  | logReady (host : List String)
  /-- The call `signal.Notify(sigterm, syscall.SIGINT, syscall.SIGTERM)`. -/
  | notifySignals
  /-- The call `log.Println("terminating: context cancelled")`. -/
  | logContextCancelled
  /-- The call `log.Println("terminating: via signal")`. -/
  | logViaSignal
  /-- The call `cancel()`. -/
  | cancel
  /-- The call `l.Consumer.Close()`. -/
  | close
  deriving DecidableEq, Repr

/-- What invoking a callback does: its result and the new world state. -/
abbrev CallbackSem (H W : Type) := H → Bytes → W → error × W

/-! ## Registry: `Kafka.AddTopicListener` -/

/-- The method `func (l *Kafka) AddTopicListener(topic string, callback messaging.CallbackFunc)`:
reads `l.CallbackFunctions[topic]`, appends the callback, stores the slice
back, and appends the topic to `l.Option.ListTopics`. -/
def Kafka.AddTopicListener {H : Type} (l : Kafka H) (topic : String) (callback : H) : Kafka H :=
  let functions := l.CallbackFunctions.get topic
  let functions := functions ++ [callback]
  { CallbackFunctions := l.CallbackFunctions.set topic functions
    Option := { l.Option with ListTopics := l.Option.ListTopics ++ [topic] } }

/-- A sequence of `AddTopicListener` calls, performed in order. -/
def Kafka.addAll {H : Type} (l : Kafka H) : List (String × H) → Kafka H
  | [] => l
  | (topic, callback) :: rest => Kafka.addAll (l.AddTopicListener topic callback) rest

/-- The distinct elements of a list in the order of their first occurrence. -/
def firstOccurrences : List String → List String
  | [] => []
  | t :: rest => t :: (firstOccurrences rest).filter (fun u => decide (u ≠ t))

/-! ## Session handler: `Consumer.ConsumeClaim` -/

/-- The inner loop of `ConsumeClaim`, `for _, callback := range ...`: each
callback is invoked with the value; a failure is passed to `Log.Error` and the
loop goes on. -/
def runCallbacks {H W : Type} (sem : CallbackSem H W) :
    List H → Bytes → W → List (Effect H) × W
  | [], _, w => ([], w)
  | callback :: rest, value, w =>
    let (err, w1) := sem callback value w
    let logged : List (Effect H) :=
      match err with
      | some e => [Effect.logError e]
      | none => []
    let (tr, w2) := runCallbacks sem rest value w1
    (Effect.callback callback value err :: (logged ++ tr), w2)

/-- The outer loop of `ConsumeClaim`, `for message := range claim.Messages()`,
on the messages the claim delivers before its channel is closed: the message
is marked, then the callbacks of its topic run. -/
def consumeMessages {H W : Type} (sem : CallbackSem H W) (consumer : Consumer H) :
    List Message → W → List (Effect H) × W
  | [], w => ([], w)
  | message :: rest, w =>
    let (tr1, w1) :=
      runCallbacks sem (consumer.CallbackFunctions.get message.Topic) message.Value w
    let (tr2, w2) := consumeMessages sem consumer rest w1
    (Effect.markMessage message :: (tr1 ++ tr2), w2)

/-- The result of running `ConsumeClaim` to its `return`. -/
structure ClaimResult (H W : Type) where
  err : error
  trace : List (Effect H)
  world : W

/-- The method `func (consumer *Consumer) ConsumeClaim(session, claim) error`: drains the
claim's messages and returns `nil`. -/
def Consumer.ConsumeClaim {H W : Type} (sem : CallbackSem H W) (consumer : Consumer H)
    (claim : List Message) (w : W) : ClaimResult H W :=
  let (tr, w1) := consumeMessages sem consumer claim w
  { err := none, trace := tr, world := w1 }

/-- The callback invocations of a trace: which callback, with which value. -/
def invocations {H : Type} : List (Effect H) → List (H × Bytes)
  | [] => []
  | Effect.callback h v _ :: rest => (h, v) :: invocations rest
  | _ :: rest => invocations rest

/-- The failures returned by the callback invocations of a trace. -/
def failures {H : Type} : List (Effect H) → List GoError
  | [] => []
  | Effect.callback _ _ (some e) :: rest => e :: failures rest
  | _ :: rest => failures rest

/-- The arguments of the `Log.Error` calls of a trace. -/
def errorLogs {H : Type} : List (Effect H) → List GoError
  | [] => []
  | Effect.logError e :: rest => e :: errorLogs rest
  | _ :: rest => errorLogs rest

/-- The messages marked in a trace. -/
def marks {H : Type} : List (Effect H) → List Message
  | [] => []
  | Effect.markMessage m :: rest => m :: marks rest
  | _ :: rest => marks rest

/-- The callbacks a registry holds for a message, paired with the value each
is to receive. -/
def expectedCalls {H : Type} (cbs : GoMap H) (m : Message) : List (H × Bytes) :=
  (cbs.get m.Topic).map (fun h => (h, m.Value))

/-! ## Channels and `Consumer.Setup` -/

/-- The channels made so far by `make(chan bool)`: for each, whether it has
been closed.  A channel is named by its index. -/
abbrev ChanHeap := List Bool

/-- The statement `make(chan bool)`: a new, open channel. -/
def ChanHeap.make (chans : ChanHeap) : ChanHeap × Nat :=
  (chans ++ [false], chans.length)

/-- Whether a channel has been closed. -/
def ChanHeap.isClosed (chans : ChanHeap) (c : Nat) : Bool :=
  chans.getD c false

/-- The statement `close(c)`: closes an open channel; on a channel that is
already closed (or was never made) the Go runtime panics, which is `none`. -/
def ChanHeap.close (chans : ChanHeap) (c : Nat) : Option ChanHeap :=
  if c < chans.length ∧ chans.isClosed c = false then some (chans.set c true) else none

/-- The ways the process aborts. -/
inductive Panic where
  /-- The runtime panic "close of closed channel". -/
  | closeOfClosedChannel
  /-- The call `log.Panicf("Error from consumer: %v", err)`. -/
  | errorFromConsumer (e : GoError)
  /-- The call `log.Panicf("Error closing client: %v", err)`. -/
  | errorClosingClient (e : GoError)
  deriving DecidableEq, Repr

/-- The method `func (consumer *Consumer) Setup(sarama.ConsumerGroupSession) error`:
closes `consumer.ready` and returns `nil`. -/
def Consumer.Setup {H : Type} (consumer : Consumer H) (chans : ChanHeap) :
    Except Panic (error × ChanHeap) :=
  match chans.close consumer.ready with
  | none => Except.error Panic.closeOfClosedChannel
  | some chans1 => Except.ok (none, chans1)

/-- The method `func (consumer *Consumer) Cleanup(sarama.ConsumerGroupSession) error`:
returns `nil`. -/
def Consumer.Cleanup {H : Type} (_consumer : Consumer H) : error :=
  none

/-! ## The dispatch loop: the goroutine of `Kafka.Listen` -/

/-- A call the group client makes on the session handler while `Consume` runs. -/
inductive HandlerCall where
  | setup
  | cleanup
  | consumeClaim (claim : List Message)
  deriving DecidableEq, Repr

/-- What one invocation of `Consume` does, as seen by the loop: the calls the
group client makes on the session handler, the value `Consume` returns, and
whether `ctx.Err() != nil` holds when the loop tests it afterwards. -/
structure ConsumeCall where
  calls : List HandlerCall
  err : error
  ctxErr : Bool
  deriving DecidableEq, Repr

/-- How many times the group client calls `Setup` during one `Consume`. -/
def ConsumeCall.setups (c : ConsumeCall) : Nat :=
  c.calls.count HandlerCall.setup

/-- The result of the session-handler calls of one `Consume`: a panic if one of
them panicked, the effects, the channels and the world. -/
structure HandlerRun (H W : Type) where
  panic : Option Panic
  trace : List (Effect H)
  chans : ChanHeap
  world : W

/-- The session-handler calls of one `Consume`, in order. -/
def runHandlerCalls {H W : Type} (sem : CallbackSem H W) (consumer : Consumer H) :
    List HandlerCall → ChanHeap → W → HandlerRun H W
  | [], chans, w => { panic := none, trace := [], chans := chans, world := w }
  | HandlerCall.setup :: rest, chans, w =>
    match consumer.Setup chans with
    | Except.error p => { panic := some p, trace := [], chans := chans, world := w }
    | Except.ok (_, chans1) =>
      let r := runHandlerCalls sem consumer rest chans1 w
      { r with trace := Effect.closeReady consumer.ready :: r.trace }
  | HandlerCall.cleanup :: rest, chans, w =>
    match consumer.Cleanup with
    | _ => runHandlerCalls sem consumer rest chans w
  | HandlerCall.consumeClaim claim :: rest, chans, w =>
    let c := consumer.ConsumeClaim sem claim w
    let r := runHandlerCalls sem consumer rest chans c.world
    { r with trace := c.trace ++ r.trace }

/-- How the goroutine ends: it returns, it panics, or it stays inside a
`Consume` that does not return. -/
inductive LoopStatus where
  | exited
  | panicked (p : Panic)
  | blocked
  deriving DecidableEq, Repr

/-- The goroutine's run: how it ended, what it did, and the state it left. -/
structure LoopResult (H W : Type) where
  status : LoopStatus
  trace : List (Effect H)
  consumer : Consumer H
  chans : ChanHeap
  world : W

/-- The body of the goroutine of `Listen`, `for { ... }`, against a script of
`Consume` invocations.  Each pass calls `Consume` with `l.Option.ListTopics`
and `&consumer`; a failure is a `log.Panicf`; otherwise a cancelled context
ends the loop and an uncancelled one replaces `consumer.ready` by a new
channel.  When the script is used up the next `Consume` does not return. -/
def dispatchLoop {H W : Type} (sem : CallbackSem H W) (l : Kafka H) :
    List ConsumeCall → Consumer H → ChanHeap → W → LoopResult H W
  | [], consumer, chans, w =>
    { status := LoopStatus.blocked
      trace := [Effect.consume l.Option.ListTopics consumer.ready]
      consumer := consumer, chans := chans, world := w }
  | c :: rest, consumer, chans, w =>
    let call : Effect H := Effect.consume l.Option.ListTopics consumer.ready
    let r := runHandlerCalls sem consumer c.calls chans w
    match r.panic with
    | some p =>
      { status := LoopStatus.panicked p, trace := call :: r.trace
        consumer := consumer, chans := r.chans, world := r.world }
    | none =>
      match c.err with
      | some e =>
        { status := LoopStatus.panicked (Panic.errorFromConsumer e), trace := call :: r.trace
          consumer := consumer, chans := r.chans, world := r.world }
      | none =>
        if c.ctxErr then
          { status := LoopStatus.exited, trace := call :: r.trace
            consumer := consumer, chans := r.chans, world := r.world }
        else
          let (chans1, ready) := r.chans.make
          let next := dispatchLoop sem l rest { consumer with ready := ready } chans1 r.world
          { next with trace := call :: (r.trace ++ next.trace) }

/-- The number of `Consume` invocations in a trace. -/
def consumeCount {H : Type} : List (Effect H) → Nat
  | [] => 0
  | Effect.consume _ _ :: rest => consumeCount rest + 1
  | _ :: rest => consumeCount rest

/-- The channels closed in a trace, in order. -/
def closedChans {H : Type} : List (Effect H) → List Nat
  | [] => []
  | Effect.closeReady c :: rest => c :: closedChans rest
  | _ :: rest => closedChans rest

/-- The `ready` channels handed to `Consume` in a trace, in order. -/
def consumeChans {H : Type} : List (Effect H) → List Nat
  | [] => []
  | Effect.consume _ c :: rest => c :: consumeChans rest
  | _ :: rest => consumeChans rest

/-! ## The controller: the calling goroutine of `Kafka.Listen` -/

/-- What the operating system does with an interrupt or terminate signal while
the process has no `signal.Notify` subscription for it: by default the process
is terminated; a process started with the signal ignored keeps ignoring it. -/
inductive Disposition where
  | terminate
  | ignore
  deriving DecidableEq, Repr

/-- The collaborators of `Listen` that are not scripted event by event: the
result of `l.NewListener()`, the result of `l.Consumer.Close()`, and the
disposition of unsubscribed signals. -/
structure ListenEnv where
  newListenerErr : error
  closeErr : error
  unsubscribed : Disposition
  deriving DecidableEq, Repr

/-- What happens around the calling goroutine while `Listen` runs. -/
inductive ListenEvent where
  /-- The channel `Listen` reads at `<-consumer.ready` is closed. -/
  | readyClosed
  /-- An interrupt or terminate signal is delivered to the process. -/
  | signal
  /-- The goroutine returns: `wg.Done()`. -/
  | loopDone
  /-- The goroutine panics, which ends the process. -/
  | loopPanicked
  deriving DecidableEq, Repr

/-- Where the calling goroutine of `Listen` is. -/
inductive ListenPc where
  /-- Blocked in `<-consumer.ready`. -/
  | awaitReady
  /-- Blocked in the `select` on `ctx.Done()` and `sigterm`. -/
  | awaitShutdown
  /-- Blocked in `wg.Wait()`. -/
  | awaitLoop
  /-- The method `Listen` has returned. -/
  | returned
  /-- The method `Listen` has panicked. -/
  | panicked (p : Panic)
  /-- The process was terminated by a signal it had not subscribed to. -/
  | terminatedBySignal
  /-- The process was ended by the panic of the goroutine. -/
  | endedByLoopPanic
  deriving DecidableEq, Repr

/-- The state of the calling goroutine of `Listen` and of what it waits on. -/
structure ListenState (H : Type) where
  pc : ListenPc
  /-- Whether the channel read at `<-consumer.ready` has been closed. -/
  readyClosed : Bool
  /-- Whether `signal.Notify` has been called. -/
  subscribed : Bool
  /-- Whether the one-slot buffer of `sigterm` holds a signal. -/
  sigterm : Bool
  /-- Whether `ctx` has been cancelled. -/
  cancelled : Bool
  /-- Whether the counter of the wait group is back to zero. -/
  loopDone : Bool
  trace : List (Effect H)
  deriving DecidableEq, Repr

/-- Whether the calling goroutine has stopped for good. -/
def ListenPc.final : ListenPc → Bool
  | ListenPc.awaitReady => false
  | ListenPc.awaitShutdown => false
  | ListenPc.awaitLoop => false
  | _ => true

/-- One statement group of `Listen` after the goroutine is started, if what it
waits on is there:
`<-consumer.ready`, then the log line and `signal.Notify`;
the `select`, then its log line and `cancel()`;
`wg.Wait()`, then `l.Consumer.Close()` and the `log.Panicf` on its failure. -/
def ListenState.advance {H : Type} (env : ListenEnv) (l : Kafka H) (s : ListenState H) :
    ListenState H :=
  match s.pc with
  | ListenPc.awaitReady =>
    if s.readyClosed then
      { s with pc := ListenPc.awaitShutdown, subscribed := true
               trace := s.trace ++ [Effect.logReady l.Option.Host, Effect.notifySignals] }
    else s
  | ListenPc.awaitShutdown =>
    if s.cancelled then
      { s with pc := ListenPc.awaitLoop, cancelled := true
               trace := s.trace ++ [Effect.logContextCancelled, Effect.cancel] }
    else if s.sigterm then
      { s with pc := ListenPc.awaitLoop, sigterm := false, cancelled := true
               trace := s.trace ++ [Effect.logViaSignal, Effect.cancel] }
    else s
  | ListenPc.awaitLoop =>
    if s.loopDone then
      match env.closeErr with
      | some e =>
        { s with pc := ListenPc.panicked (Panic.errorClosingClient e)
                 trace := s.trace ++ [Effect.close] }
      | none => { s with pc := ListenPc.returned, trace := s.trace ++ [Effect.close] }
    else s
  | _ => s

/-- The calling goroutine runs until it blocks again: there are three places
where it can block. -/
def ListenState.settle {H : Type} (env : ListenEnv) (l : Kafka H) (s : ListenState H) :
    ListenState H :=
  (((s.advance env l).advance env l).advance env l)

/-- What the calling goroutine of `Listen` can come to see of the goroutine it
started: whether `Setup` closed the channel `Listen` waits on, whether the
goroutine returned (`wg.Done()`), whether it panicked. -/
structure LoopFacts where
  readyClosed : Bool
  exited : Bool
  panicked : Bool
  deriving DecidableEq, Repr

/-- The facts of a run of the goroutine, `ready` being the channel `Listen`
waits on. -/
def LoopResult.facts {H W : Type} (r : LoopResult H W) (ready : Nat) : LoopFacts :=
  { readyClosed := (closedChans r.trace).contains ready
    exited := decide (r.status = LoopStatus.exited)
    panicked :=
      match r.status with
      | LoopStatus.panicked _ => true
      | _ => false }

/-- An event is delivered.  A signal goes to the buffer of `sigterm` once
`signal.Notify` has been called; before that it is handled by the operating
system.  An event of the goroutine happens only in a run in which the
goroutine does that: `readyClosed` when `Setup` closed the channel,
`loopDone` when the goroutine returned, `loopPanicked` when it panicked. -/
def ListenState.deliver {H : Type} (env : ListenEnv) (l : Kafka H) (facts : LoopFacts)
    (s : ListenState H) (ev : ListenEvent) : ListenState H :=
  if s.pc.final then s
  else
    match ev with
    | ListenEvent.readyClosed =>
      if facts.readyClosed then ({ s with readyClosed := true }).settle env l else s
    | ListenEvent.signal =>
      if s.subscribed then ({ s with sigterm := true }).settle env l
      else
        match env.unsubscribed with
        | Disposition.terminate => { s with pc := ListenPc.terminatedBySignal }
        | Disposition.ignore => s
    | ListenEvent.loopDone =>
      if facts.exited then ({ s with loopDone := true }).settle env l else s
    | ListenEvent.loopPanicked =>
      if facts.panicked then { s with pc := ListenPc.endedByLoopPanic } else s

/-- The events are delivered in order. -/
def ListenState.run {H : Type} (env : ListenEnv) (l : Kafka H) (facts : LoopFacts)
    (s : ListenState H) (events : List ListenEvent) : ListenState H :=
  events.foldl (fun s ev => s.deliver env l facts ev) s

/-- The state of the calling goroutine when the goroutine has just been
started. -/
def ListenState.start (H : Type) : ListenState H :=
  { pc := ListenPc.awaitReady, readyClosed := false, subscribed := false
    sigterm := false, cancelled := false, loopDone := false
    trace := [Effect.spawnLoop] }

/-- The consumer `Listen` builds: a new `ready` channel, the callback map and
the options of `l`. -/
def Kafka.newConsumer {H : Type} (l : Kafka H) : Consumer H × ChanHeap :=
  let (chans, ready) := ChanHeap.make []
  ({ ready := ready, CallbackFunctions := l.CallbackFunctions, Option := l.Option }, chans)

/-- A run of `Listen`: the calling goroutine, and the goroutine it started, if
it started one. -/
structure ListenRun (H W : Type) where
  main : ListenState H
  loop : Option (LoopResult H W)

/-- The method `func (l *Kafka) Listen()`, against the events around the
calling goroutine and the script of `Consume` invocations of the goroutine.
When `l.NewListener()` fails `Listen` returns at once.  Otherwise the goroutine
is started on the new consumer and the calling goroutine waits for the `ready`
channel it has just made, subscribes to the signals, waits for a signal or the
context, cancels, waits for the goroutine and closes the group client. -/
def Kafka.Listen {H W : Type} (env : ListenEnv) (sem : CallbackSem H W) (l : Kafka H)
    (events : List ListenEvent) (script : List ConsumeCall) (w : W) : ListenRun H W :=
  match env.newListenerErr with
  | some _ =>
    { main := { pc := ListenPc.returned, readyClosed := false, subscribed := false
                sigterm := false, cancelled := false, loopDone := false, trace := [] }
      loop := none }
  | none =>
    let (consumer, chans) := l.newConsumer
    let loop := dispatchLoop sem l script consumer chans w
    { main := (ListenState.start H).run env l (loop.facts consumer.ready) events
      loop := some loop }

/-- Everything a run of `Listen` did: the effects of the calling goroutine and
those of the goroutine it started. -/
def ListenRun.effects {H W : Type} (r : ListenRun H W) : List (Effect H) :=
  r.main.trace ++
    (match r.loop with
     | some lr => lr.trace
     | none => [])

/-! ## Phases of the controller -/

/-- The places where the calling goroutine of `Listen` can be once the `ready`
channel has been closed, each with the effects it has produced by then. -/
inductive ListenPhase where
  /-- In the `select`, subscribed to the signals, none buffered. -/
  | waitingSignal
  /-- In `wg.Wait()`, after `cancel()`, while the goroutine still runs. -/
  | waitingLoop
  /-- After `l.Consumer.Close()`. -/
  | closed
  deriving DecidableEq, Repr

/-- How `Listen` ends after `l.Consumer.Close()`: it returns, or panics on the
failure of `Close`. -/
def ListenEnv.afterClose (env : ListenEnv) : ListenPc :=
  match env.closeErr with
  | none => ListenPc.returned
  | some e => ListenPc.panicked (Panic.errorClosingClient e)

/-- The state of the calling goroutine is the one of the given phase. -/
def ListenState.inPhase {H : Type} (env : ListenEnv) (l : Kafka H) (s : ListenState H) :
    ListenPhase → Prop
  | ListenPhase.waitingSignal =>
    s.pc = ListenPc.awaitShutdown ∧ s.subscribed = true ∧ s.sigterm = false ∧
      s.cancelled = false ∧
      s.trace = [Effect.spawnLoop, Effect.logReady l.Option.Host, Effect.notifySignals]
  | ListenPhase.waitingLoop =>
    s.pc = ListenPc.awaitLoop ∧ s.subscribed = true ∧ s.loopDone = false ∧
      s.trace = [Effect.spawnLoop, Effect.logReady l.Option.Host, Effect.notifySignals,
        Effect.logViaSignal, Effect.cancel]
  | ListenPhase.closed =>
    s.pc = env.afterClose ∧
      s.trace = [Effect.spawnLoop, Effect.logReady l.Option.Host, Effect.notifySignals,
        Effect.logViaSignal, Effect.cancel, Effect.close]

/-! ## Sample inputs -/

/-- A message on topic `orders` with payload `a`. -/
def sampleM1 : Message :=
  { Topic := "orders", Partition := 0, Offset := 0, Key := [], Value := [97] }

/-- The next message on topic `orders`, with payload `b`. -/
def sampleM2 : Message :=
  { Topic := "orders", Partition := 0, Offset := 1, Key := [], Value := [98] }

/-- A message on a topic nobody registered for. -/
def sampleM3 : Message :=
  { Topic := "audit", Partition := 0, Offset := 0, Key := [], Value := [99] }

/-- A registry with one callback, named `1`, on topic `orders`. -/
def sampleKafka : Kafka Nat :=
  (Kafka.empty Nat ["broker:9092"]).AddTopicListener "orders" 1

/-- Callbacks that always succeed. -/
def sampleSem : CallbackSem Nat Unit :=
  fun _ _ w => (none, w)

/-- Two sessions ended by a rebalance: in each the group client calls `Setup`,
hands over one claim and returns `nil` while the context is not cancelled. -/
def sampleRebalances : List ConsumeCall :=
  [ { calls := [HandlerCall.setup, HandlerCall.consumeClaim [sampleM1]], err := none
      ctxErr := false },
    { calls := [HandlerCall.setup, HandlerCall.consumeClaim [sampleM2]], err := none
      ctxErr := false } ]

/-- A `Consume` that returns the cancellation failure once the context is
cancelled. -/
def sampleCancelled : ConsumeCall :=
  { calls := [], err := some GoError.contextCanceled, ctxErr := true }

/-- A `Consume` that returns `nil` once the context is cancelled. -/
def sampleStopped : ConsumeCall :=
  { calls := [], err := none, ctxErr := true }

/-- A group client that can be built and closed, in a process with the default
disposition of signals. -/
def sampleEnv : ListenEnv :=
  { newListenerErr := none, closeErr := none, unsubscribed := Disposition.terminate }

/-- The same in a process started with the signals ignored. -/
def sampleEnvIgnoring : ListenEnv :=
  { newListenerErr := none, closeErr := none, unsubscribed := Disposition.ignore }

/-! ## Invariants of the controller -/

/-- The flags of the calling goroutine are backed by the events delivered so
far and by what the goroutine did: a flag is set only after its event, a
signal is buffered and `cancel()` is called only for a signal delivered after
the `ready` channel was closed, and `Close()` is called only after the
goroutine has returned. -/
def ListenState.grounded {H : Type} (facts : LoopFacts) (s : ListenState H)
    (done : List ListenEvent) : Prop :=
  (s.readyClosed = true → ListenEvent.readyClosed ∈ done ∧ facts.readyClosed = true) ∧
  (s.loopDone = true → ListenEvent.loopDone ∈ done ∧ facts.exited = true) ∧
  (s.subscribed = true → s.readyClosed = true) ∧
  (s.sigterm = true ∨ Effect.cancel ∈ s.trace →
    (∃ pre post, done = pre ++ ListenEvent.signal :: post ∧ ListenEvent.readyClosed ∈ pre) ∧
      facts.readyClosed = true) ∧
  (Effect.close ∈ s.trace → s.loopDone = true) ∧
  (s.cancelled = true → Effect.cancel ∈ s.trace)

/-- The effects of the calling goroutine come in the order of the program:
what it has done is fixed by the place where it waits. -/
def ListenState.ordered {H : Type} (l : Kafka H) (s : ListenState H) : Prop :=
  (s.pc = ListenPc.awaitReady → s.trace = [Effect.spawnLoop] ∧ s.cancelled = false) ∧
  (s.pc = ListenPc.awaitShutdown →
    s.trace = [Effect.spawnLoop, Effect.logReady l.Option.Host, Effect.notifySignals] ∧
      s.cancelled = false) ∧
  (s.pc = ListenPc.awaitLoop →
    s.trace = [Effect.spawnLoop, Effect.logReady l.Option.Host, Effect.notifySignals,
      Effect.logViaSignal, Effect.cancel]) ∧
  s.trace <+: [Effect.spawnLoop, Effect.logReady l.Option.Host, Effect.notifySignals,
    Effect.logViaSignal, Effect.cancel, Effect.close]

/-! ## What the callbacks return -/

/-- The results recorded by the callback invocations of a trace, in order. -/
def callbackResults {H : Type} : List (Effect H) → List error
  | [] => []
  | Effect.callback _ _ r :: rest => r :: callbackResults rest
  | _ :: rest => callbackResults rest

/-- The values the callbacks return when the given invocations are made one
after the other, starting in the world `w`: each invocation runs in the world
the one before it left. -/
def returnedBy {H W : Type} (sem : CallbackSem H W) : List (H × Bytes) → W → List error
  | [], _ => []
  | (h, v) :: rest, w => (sem h v w).1 :: returnedBy sem rest (sem h v w).2

/-- The world the given invocations leave, made one after the other. -/
def worldAfter {H W : Type} (sem : CallbackSem H W) : List (H × Bytes) → W → W
  | [], w => w
  | (h, v) :: rest, w => worldAfter sem rest (sem h v w).2

/-- Whether every failing callback invocation of a trace is followed at once
by the `Log.Error` call with its failure, and `Log.Error` is called nowhere
else. -/
def loggedAtOnce {H : Type} : List (Effect H) → Bool
  | [] => true
  | Effect.callback _ _ (some e) :: Effect.logError e' :: rest =>
    decide (e = e') && loggedAtOnce rest
  | Effect.callback _ _ (some _) :: _ => false
  | Effect.logError _ :: _ => false
  | _ :: rest => loggedAtOnce rest

/-- A callback named `1` that fails on every invocation, next to callbacks that
succeed. -/
def sampleSemFailing : CallbackSem Nat Unit :=
  fun h _ w => (if h = 1 then some (GoError.other "boom") else none, w)

/-- A registry with the callbacks `1` and `2`, in this order, on topic `t`. -/
def sampleKafkaTwo : Kafka Nat :=
  ((Kafka.empty Nat ["broker:9092"]).AddTopicListener "t" 1).AddTopicListener "t" 2

/-- A message on topic `t`. -/
def sampleM4 : Message :=
  { Topic := "t", Partition := 0, Offset := 0, Key := [], Value := [100] }

/-! ## The messages of a script -/

/-- The messages a session-handler call hands to `ConsumeClaim`. -/
def HandlerCall.messages : HandlerCall → List Message
  | HandlerCall.consumeClaim claim => claim
  | _ => []

/-- The messages the group client delivers during one `Consume`, in order. -/
def ConsumeCall.messages (c : ConsumeCall) : List Message :=
  c.calls.flatMap HandlerCall.messages

/-- A `Consume` that fails at once although the context is not cancelled. -/
def sampleBroken : ConsumeCall :=
  { calls := [], err := some (GoError.other "no brokers"), ctxErr := false }

/-! ## Lemmas on the registry -/

theorem GoMap.get_set_same {H : Type} (m : GoMap H) (k : String) (v : List H) :
    (m.set k v).get k = v := by
  induction m with
  | nil => simp [GoMap.set, GoMap.get]
  | cons p rest ih =>
    obtain ⟨k', v'⟩ := p
    by_cases hk : k' = k
    · simp [GoMap.set, GoMap.get, hk]
    · simp [GoMap.set, GoMap.get, hk, ih]

theorem GoMap.get_set_other {H : Type} (m : GoMap H) (k u : String) (v : List H)
    (hu : u ≠ k) : (m.set k v).get u = m.get u := by
  induction m with
  | nil => simp [GoMap.set, GoMap.get, Ne.symm hu]
  | cons p rest ih =>
    obtain ⟨k', v'⟩ := p
    by_cases hk : k' = k
    · subst hk
      simp [GoMap.set, GoMap.get, Ne.symm hu]
    · by_cases hk2 : k' = u
      · subst hk2
        simp [GoMap.set, GoMap.get, hk]
      · simp [GoMap.set, GoMap.get, hk, hk2, ih]

theorem GoMap.get_absent {H : Type} (m : GoMap H) (k : String) (hk : k ∉ m.keys) :
    m.get k = [] := by
  induction m with
  | nil => rfl
  | cons p rest ih =>
    obtain ⟨k', v'⟩ := p
    simp only [GoMap.keys, List.map_cons, List.mem_cons, not_or] at hk
    have h1 : ¬ k' = k := fun h => hk.1 h.symm
    simp only [GoMap.get, h1, if_false]
    exact ih hk.2

theorem GoMap.keys_set {H : Type} (m : GoMap H) (k : String) (v : List H) :
    (m.set k v).keys = if k ∈ m.keys then m.keys else m.keys ++ [k] := by
  induction m with
  | nil => simp [GoMap.set, GoMap.keys]
  | cons p rest ih =>
    obtain ⟨k', v'⟩ := p
    by_cases hk : k' = k
    · subst hk
      simp [GoMap.set, GoMap.keys]
    · have hk2 : ¬ k = k' := fun h => hk h.symm
      simp only [GoMap.keys] at ih
      simp only [GoMap.set, hk, if_false, GoMap.keys, List.map_cons, List.mem_cons, hk2,
        false_or, ih]
      split <;> simp

theorem Kafka.addAll_ListTopics {H : Type} (calls : List (String × H)) (l : Kafka H) :
    (l.addAll calls).Option.ListTopics = l.Option.ListTopics ++ calls.map Prod.fst := by
  induction calls generalizing l with
  | nil => simp [Kafka.addAll]
  | cons c rest ih =>
    obtain ⟨t, h⟩ := c
    simp [Kafka.addAll, ih, Kafka.AddTopicListener]

theorem firstOccurrences_mem (ts : List String) (t : String) :
    t ∈ firstOccurrences ts ↔ t ∈ ts := by
  induction ts with
  | nil => simp [firstOccurrences]
  | cons u rest ih =>
    simp only [firstOccurrences, List.mem_cons, List.mem_filter, ih, decide_eq_true_eq]
    by_cases h : t = u <;> simp [h]

theorem Kafka.addAll_keys {H : Type} (calls : List (String × H)) (l : Kafka H) :
    (l.addAll calls).CallbackFunctions.keys =
      l.CallbackFunctions.keys ++
        (firstOccurrences (calls.map Prod.fst)).filter
          (fun u => decide (u ∉ l.CallbackFunctions.keys)) := by
  induction calls generalizing l with
  | nil => simp [Kafka.addAll, firstOccurrences]
  | cons c rest ih =>
    obtain ⟨t, h⟩ := c
    simp only [Kafka.addAll, ih, List.map_cons, firstOccurrences]
    simp only [Kafka.AddTopicListener, GoMap.keys_set]
    by_cases ht : t ∈ l.CallbackFunctions.keys
    · simp only [ht, if_true, List.filter_cons, not_true_eq_false, decide_False,
        List.filter_filter]
      congr 1
      apply List.filter_congr
      intro u _
      by_cases hu : u ∈ l.CallbackFunctions.keys
      · simp [hu]
      · have : u ≠ t := fun h => hu (h ▸ ht)
        simp [hu, this]
    · simp only [ht, if_false, List.filter_cons, not_false_eq_true, decide_True, if_true,
        List.filter_filter, List.append_assoc, List.singleton_append]
      congr 2
      apply List.filter_congr
      intro u _
      by_cases hu : u ∈ l.CallbackFunctions.keys
      · simp [hu]
      · by_cases hut : u = t <;> simp [hu, hut]

/-! ## Lemmas on `ConsumeClaim` -/

theorem invocations_append {H : Type} (a b : List (Effect H)) :
    invocations (a ++ b) = invocations a ++ invocations b := by
  induction a with
  | nil => rfl
  | cons e rest ih => cases e <;> simp [invocations, ih]

theorem failures_append {H : Type} (a b : List (Effect H)) :
    failures (a ++ b) = failures a ++ failures b := by
  induction a with
  | nil => rfl
  | cons e rest ih =>
    cases e with
    | callback h v r => cases r <;> simp [failures, ih]
    | _ => simp [failures, ih]

theorem errorLogs_append {H : Type} (a b : List (Effect H)) :
    errorLogs (a ++ b) = errorLogs a ++ errorLogs b := by
  induction a with
  | nil => rfl
  | cons e rest ih => cases e <;> simp [errorLogs, ih]

theorem marks_append {H : Type} (a b : List (Effect H)) :
    marks (a ++ b) = marks a ++ marks b := by
  induction a with
  | nil => rfl
  | cons e rest ih => cases e <;> simp [marks, ih]

theorem runCallbacks_invocations {H W : Type} (sem : CallbackSem H W) (hs : List H)
    (v : Bytes) (w : W) :
    invocations (runCallbacks sem hs v w).1 = hs.map (fun h => (h, v)) := by
  induction hs generalizing w with
  | nil => rfl
  | cons h rest ih =>
    simp only [runCallbacks, List.map_cons]
    cases hr : (sem h v w).1 <;>
      simp [invocations, invocations_append, ih]

theorem runCallbacks_marks {H W : Type} (sem : CallbackSem H W) (hs : List H)
    (v : Bytes) (w : W) :
    marks (runCallbacks sem hs v w).1 = [] := by
  induction hs generalizing w with
  | nil => rfl
  | cons h rest ih =>
    simp only [runCallbacks]
    cases hr : (sem h v w).1 <;>
      simp [marks, marks_append, ih]

theorem runCallbacks_logs {H W : Type} (sem : CallbackSem H W) (hs : List H)
    (v : Bytes) (w : W) :
    errorLogs (runCallbacks sem hs v w).1 = failures (runCallbacks sem hs v w).1 := by
  induction hs generalizing w with
  | nil => rfl
  | cons h rest ih =>
    simp only [runCallbacks]
    cases hr : (sem h v w).1 <;>
      simp [errorLogs, failures, errorLogs_append, failures_append, ih]

theorem consumeMessages_append {H W : Type} (sem : CallbackSem H W) (consumer : Consumer H)
    (pre post : List Message) (w : W) :
    consumeMessages sem consumer (pre ++ post) w =
      ((consumeMessages sem consumer pre w).1 ++
          (consumeMessages sem consumer post (consumeMessages sem consumer pre w).2).1,
        (consumeMessages sem consumer post (consumeMessages sem consumer pre w).2).2) := by
  induction pre generalizing w with
  | nil => simp [consumeMessages]
  | cons m rest ih =>
    rw [List.cons_append]
    simp only [consumeMessages]
    rw [ih]
    simp

theorem runCallbacks_no_consume {H W : Type} (sem : CallbackSem H W) (hs : List H)
    (v : Bytes) (w : W) (topics : List String) (ch : Nat) :
    Effect.consume topics ch ∉ (runCallbacks sem hs v w).1 := by
  induction hs generalizing w with
  | nil => simp [runCallbacks]
  | cons h rest ih =>
    simp only [runCallbacks]
    cases hr : (sem h v w).1 <;> simp [ih]

theorem consumeMessages_no_consume {H W : Type} (sem : CallbackSem H W)
    (consumer : Consumer H) (claim : List Message) (w : W) (topics : List String) (ch : Nat) :
    Effect.consume topics ch ∉ (consumeMessages sem consumer claim w).1 := by
  induction claim generalizing w with
  | nil => simp [consumeMessages]
  | cons m rest ih =>
    simp [consumeMessages, ih, runCallbacks_no_consume]

theorem runHandlerCalls_no_consume {H W : Type} (sem : CallbackSem H W)
    (consumer : Consumer H) (calls : List HandlerCall) (chans : ChanHeap) (w : W)
    (topics : List String) (ch : Nat) :
    Effect.consume topics ch ∉ (runHandlerCalls sem consumer calls chans w).trace := by
  induction calls generalizing chans w with
  | nil => simp [runHandlerCalls]
  | cons c rest ih =>
    cases c with
    | setup =>
      simp only [runHandlerCalls, Consumer.Setup]
      cases chans.close consumer.ready <;> simp [ih]
    | cleanup => simpa [runHandlerCalls] using ih chans w
    | consumeClaim claim =>
      simp [runHandlerCalls, ih, Consumer.ConsumeClaim, consumeMessages_no_consume]

theorem dispatchLoop_consume_topics {H W : Type} (sem : CallbackSem H W) (l : Kafka H)
    (script : List ConsumeCall) (consumer : Consumer H) (chans : ChanHeap) (w : W)
    (topics : List String) (ch : Nat)
    (hmem : Effect.consume topics ch ∈ (dispatchLoop sem l script consumer chans w).trace) :
    topics = l.Option.ListTopics := by
  induction script generalizing consumer chans w with
  | nil =>
    simp only [dispatchLoop, List.mem_singleton, Effect.consume.injEq] at hmem
    exact hmem.1
  | cons c rest ih =>
    have hno := runHandlerCalls_no_consume sem consumer c.calls chans w topics ch
    simp only [dispatchLoop] at hmem
    split at hmem
    · simp only [List.mem_cons, Effect.consume.injEq, hno, or_false] at hmem
      exact hmem.1
    · split at hmem
      · simp only [List.mem_cons, Effect.consume.injEq, hno, or_false] at hmem
        exact hmem.1
      · split at hmem
        · simp only [List.mem_cons, Effect.consume.injEq, hno, or_false] at hmem
          exact hmem.1
        · simp only [ChanHeap.make, List.mem_cons, Effect.consume.injEq, List.mem_append, hno,
            false_or] at hmem
          rcases hmem with h | h
          · exact h.1
          · exact ih _ _ _ h

/-! ## The registry claims -/

/-- Claim C1.  For every registry state, topic `t` and handler `h`, after
`AddTopicListener(t, h)` the handlers of `t` are the old handlers of `t` (none
if `t` was absent) with `h` appended at the end, the subscriptions are the old
subscriptions with `t` appended at the end, and the handlers of every other
topic are unchanged. -/
theorem AddTopicListener_appends {H : Type} (l : Kafka H) (t : String) (h : H) :
    (l.AddTopicListener t h).CallbackFunctions.get t = l.CallbackFunctions.get t ++ [h] ∧
    (t ∉ l.CallbackFunctions.keys → (l.AddTopicListener t h).CallbackFunctions.get t = [h]) ∧
    (l.AddTopicListener t h).Option.ListTopics = l.Option.ListTopics ++ [t] ∧
    (∀ u, u ≠ t →
      (l.AddTopicListener t h).CallbackFunctions.get u = l.CallbackFunctions.get u) := by
  refine ⟨?_, ?_, rfl, ?_⟩
  · simp [Kafka.AddTopicListener, GoMap.get_set_same]
  · intro ht
    simp [Kafka.AddTopicListener, GoMap.get_set_same, GoMap.get_absent _ _ ht]
  · intro u hu
    simp [Kafka.AddTopicListener, GoMap.get_set_other _ _ _ _ hu]

/-- Claim C5.  Starting from the empty registry, after every finite sequence of
`AddTopicListener` calls the topics occurring in the subscriptions are exactly
the keys of the handler map, the first occurrences in the subscriptions are in
the order in which the topics were first registered (and the keys are those
first occurrences), and the subscription list handed to every `Consume` call
of the dispatch loop contains every key of the handler map. -/
theorem subscriptions_cover_keys {H W : Type} (host : List String)
    (calls : List (String × H)) :
    (∀ t, t ∈ ((Kafka.empty H host).addAll calls).Option.ListTopics ↔
        t ∈ ((Kafka.empty H host).addAll calls).CallbackFunctions.keys) ∧
    firstOccurrences ((Kafka.empty H host).addAll calls).Option.ListTopics =
        firstOccurrences (calls.map Prod.fst) ∧
    ((Kafka.empty H host).addAll calls).CallbackFunctions.keys =
        firstOccurrences ((Kafka.empty H host).addAll calls).Option.ListTopics ∧
    (∀ (sem : CallbackSem H W) (script : List ConsumeCall) (consumer : Consumer H)
        (chans : ChanHeap) (w : W) (topics : List String) (ch : Nat),
        Effect.consume topics ch ∈
          (dispatchLoop sem ((Kafka.empty H host).addAll calls) script consumer chans w).trace →
        ∀ t ∈ ((Kafka.empty H host).addAll calls).CallbackFunctions.keys, t ∈ topics) := by
  have hT : ((Kafka.empty H host).addAll calls).Option.ListTopics = calls.map Prod.fst := by
    rw [Kafka.addAll_ListTopics]; rfl
  have hK : ((Kafka.empty H host).addAll calls).CallbackFunctions.keys =
      firstOccurrences (calls.map Prod.fst) := by
    rw [Kafka.addAll_keys]
    simp [Kafka.empty, GoMap.keys]
  have hmem : ∀ t, t ∈ ((Kafka.empty H host).addAll calls).Option.ListTopics ↔
      t ∈ ((Kafka.empty H host).addAll calls).CallbackFunctions.keys := by
    intro t
    rw [hT, hK, firstOccurrences_mem]
  refine ⟨hmem, by rw [hT], by rw [hK, hT], ?_⟩
  intro sem script consumer chans w topics ch hc t ht
  rw [dispatchLoop_consume_topics sem _ script consumer chans w topics ch hc]
  exact (hmem t).mpr ht

/-! ## The `ConsumeClaim` claims -/

/-- Claim C2.  For every message stream of a claim, every registry and every
behaviour of the callbacks, the callback invocations of `ConsumeClaim` are the
concatenation, over the messages in stream order, of the callbacks registered
for the message's topic in registration order, each invoked once with the
message's value.  Whatever the callbacks return, the invocations for one
message all precede those for the next. -/
theorem ConsumeClaim_invocations {H W : Type} (sem : CallbackSem H W) (consumer : Consumer H)
    (claim : List Message) (w : W) :
    invocations (consumer.ConsumeClaim sem claim w).trace =
      (claim.map (expectedCalls consumer.CallbackFunctions)).flatten := by
  simp only [Consumer.ConsumeClaim]
  induction claim generalizing w with
  | nil => rfl
  | cons m rest ih =>
    simp only [consumeMessages, invocations, invocations_append, runCallbacks_invocations,
      List.map_cons, List.flatten_cons, expectedCalls, ih]

/-- Claim C3.  For every message stream, registry and behaviour of the
callbacks, the messages `ConsumeClaim` marks are exactly the messages of the
stream, each once and in order; the trace is made of one block per message
that starts with the mark of the message and goes on with the invocations of
the callbacks of that message and no further mark, so the mark precedes the
first invocation for the message; this holds whether or not callbacks fail. -/
theorem ConsumeClaim_marks_before_callbacks {H W : Type} (sem : CallbackSem H W)
    (consumer : Consumer H) (claim : List Message) (w : W) :
    marks (consumer.ConsumeClaim sem claim w).trace = claim ∧
    ∃ blocks : List (List (Effect H)),
      List.Forall₂
        (fun m b => marks b = [] ∧ invocations b = expectedCalls consumer.CallbackFunctions m)
        claim blocks ∧
      (consumer.ConsumeClaim sem claim w).trace =
        (List.zipWith (fun m b => Effect.markMessage m :: b) claim blocks).flatten := by
  simp only [Consumer.ConsumeClaim]
  induction claim generalizing w with
  | nil => exact ⟨rfl, [], List.Forall₂.nil, rfl⟩
  | cons m rest ih =>
    obtain ⟨hm, blocks, hb, ht⟩ :=
      ih (runCallbacks sem (consumer.CallbackFunctions.get m.Topic) m.Value w).2
    refine ⟨?_, (runCallbacks sem (consumer.CallbackFunctions.get m.Topic) m.Value w).1 :: blocks,
      List.Forall₂.cons ⟨runCallbacks_marks _ _ _ _, runCallbacks_invocations _ _ _ _⟩ hb, ?_⟩
    · simp [consumeMessages, marks, marks_append, runCallbacks_marks, hm]
    · simp only [consumeMessages, List.zipWith_cons_cons, List.flatten_cons, List.cons_append]
      rw [ht]

/-- Claim C6.  For every registry and every message whose topic has no
registered handler, wherever the message stands in the stream, `ConsumeClaim`
marks the message and does nothing else for it: no callback is invoked and
`Log.Error` is not called between the work on the messages before it and the
work on the messages after it. -/
theorem ConsumeClaim_unregistered_topic {H W : Type} (sem : CallbackSem H W)
    (consumer : Consumer H) (pre post : List Message) (m : Message) (w : W)
    (hm : consumer.CallbackFunctions.get m.Topic = []) :
    (consumer.ConsumeClaim sem (pre ++ m :: post) w).trace =
      (consumer.ConsumeClaim sem pre w).trace ++
        Effect.markMessage m ::
          (consumer.ConsumeClaim sem post (consumer.ConsumeClaim sem pre w).world).trace := by
  simp only [Consumer.ConsumeClaim]
  rw [consumeMessages_append]
  simp [consumeMessages, hm, runCallbacks]

/-- An unregistered topic between two registered messages: the message on
`audit` is marked and nothing else happens for it. -/
theorem ConsumeClaim_unregistered_topic_witness :
    sampleKafka.newConsumer.1.CallbackFunctions.get sampleM3.Topic = [] ∧
    (sampleKafka.newConsumer.1.ConsumeClaim sampleSem
        ([sampleM1] ++ sampleM3 :: [sampleM2]) ()).trace =
      [Effect.markMessage sampleM1, Effect.callback 1 [97] none,
        Effect.markMessage sampleM3,
        Effect.markMessage sampleM2, Effect.callback 1 [98] none] :=
  ⟨by decide,
    (ConsumeClaim_unregistered_topic sampleSem sampleKafka.newConsumer.1 [sampleM1] [sampleM2]
      sampleM3 () (by decide)).trans (by decide)⟩

/-! ## Lemmas on the dispatch loop -/

theorem closedChans_append {H : Type} (a b : List (Effect H)) :
    closedChans (a ++ b) = closedChans a ++ closedChans b := by
  induction a with
  | nil => rfl
  | cons e rest ih => cases e <;> simp [closedChans, ih]

theorem consumeChans_append {H : Type} (a b : List (Effect H)) :
    consumeChans (a ++ b) = consumeChans a ++ consumeChans b := by
  induction a with
  | nil => rfl
  | cons e rest ih => cases e <;> simp [consumeChans, ih]

theorem consumeCount_append {H : Type} (a b : List (Effect H)) :
    consumeCount (a ++ b) = consumeCount a + consumeCount b := by
  induction a with
  | nil => simp [consumeCount]
  | cons e rest ih =>
    cases e with
    | consume topics ch =>
      rw [List.cons_append]
      simp only [consumeCount, ih]
      omega
    | _ => simp [consumeCount, ih]

theorem consumeCount_eq_zero {H : Type} (tr : List (Effect H))
    (h : ∀ topics ch, Effect.consume topics ch ∉ tr) : consumeCount tr = 0 := by
  induction tr with
  | nil => rfl
  | cons e rest ih =>
    have hrest : ∀ topics ch, Effect.consume topics ch ∉ rest :=
      fun topics ch hmem => h topics ch (List.mem_cons_of_mem _ hmem)
    cases e with
    | consume topics ch => exact absurd (List.mem_cons_self _ _) (h topics ch)
    | _ => simpa [consumeCount] using ih hrest

theorem consumeChans_eq_nil {H : Type} (tr : List (Effect H))
    (h : ∀ topics ch, Effect.consume topics ch ∉ tr) : consumeChans tr = [] := by
  induction tr with
  | nil => rfl
  | cons e rest ih =>
    have hrest : ∀ topics ch, Effect.consume topics ch ∉ rest :=
      fun topics ch hmem => h topics ch (List.mem_cons_of_mem _ hmem)
    cases e with
    | consume topics ch => exact absurd (List.mem_cons_self _ _) (h topics ch)
    | _ => simpa [consumeChans] using ih hrest

theorem runCallbacks_closedChans {H W : Type} (sem : CallbackSem H W) (hs : List H)
    (v : Bytes) (w : W) : closedChans (runCallbacks sem hs v w).1 = [] := by
  induction hs generalizing w with
  | nil => rfl
  | cons h rest ih =>
    simp only [runCallbacks]
    cases hr : (sem h v w).1 <;> simp [closedChans, closedChans_append, ih]

theorem consumeMessages_closedChans {H W : Type} (sem : CallbackSem H W)
    (consumer : Consumer H) (claim : List Message) (w : W) :
    closedChans (consumeMessages sem consumer claim w).1 = [] := by
  induction claim generalizing w with
  | nil => rfl
  | cons m rest ih =>
    simp [consumeMessages, closedChans, closedChans_append, runCallbacks_closedChans, ih]

theorem ChanHeap.close_length (chans chans1 : ChanHeap) (c : Nat)
    (h : chans.close c = some chans1) : chans1.length = chans.length := by
  unfold ChanHeap.close at h
  split at h
  · cases h; simp
  · cases h

theorem runHandlerCalls_chans_length {H W : Type} (sem : CallbackSem H W)
    (consumer : Consumer H) (calls : List HandlerCall) (chans : ChanHeap) (w : W) :
    (runHandlerCalls sem consumer calls chans w).chans.length = chans.length := by
  induction calls generalizing chans w with
  | nil => rfl
  | cons c rest ih =>
    cases c with
    | setup =>
      simp only [runHandlerCalls, Consumer.Setup]
      cases hc : chans.close consumer.ready with
      | none => rfl
      | some chans1 =>
        simp only [ih]
        exact ChanHeap.close_length _ _ _ hc
    | cleanup => simpa [runHandlerCalls] using ih chans w
    | consumeClaim claim => simp [runHandlerCalls, ih]

theorem runHandlerCalls_closedChans {H W : Type} (sem : CallbackSem H W)
    (consumer : Consumer H) (calls : List HandlerCall) (chans : ChanHeap) (w : W) :
    ∀ c ∈ closedChans (runHandlerCalls sem consumer calls chans w).trace, c = consumer.ready := by
  induction calls generalizing chans w with
  | nil => simp [runHandlerCalls, closedChans]
  | cons c rest ih =>
    cases c with
    | setup =>
      simp only [runHandlerCalls, Consumer.Setup]
      cases hc : chans.close consumer.ready with
      | none => simp [closedChans]
      | some chans1 =>
        intro c hmem
        simp only [closedChans, List.mem_cons] at hmem
        rcases hmem with h | h
        · exact h
        · exact ih _ _ c h
    | cleanup => simpa [runHandlerCalls] using ih chans w
    | consumeClaim claim =>
      intro c hmem
      simp only [runHandlerCalls, closedChans_append, Consumer.ConsumeClaim,
        consumeMessages_closedChans, List.nil_append] at hmem
      exact ih _ _ c hmem

theorem runHandlerCalls_no_setup {H W : Type} (sem : CallbackSem H W)
    (consumer : Consumer H) (calls : List HandlerCall) (chans : ChanHeap) (w : W)
    (h0 : calls.count HandlerCall.setup = 0) :
    (runHandlerCalls sem consumer calls chans w).panic = none ∧
    closedChans (runHandlerCalls sem consumer calls chans w).trace = [] := by
  induction calls generalizing chans w with
  | nil => exact ⟨rfl, rfl⟩
  | cons c rest ih =>
    cases c with
    | setup => simp [List.count_cons] at h0
    | cleanup =>
      have h1 : rest.count HandlerCall.setup = 0 := by simpa [List.count_cons] using h0
      simpa [runHandlerCalls] using ih chans w h1
    | consumeClaim claim =>
      have h1 : rest.count HandlerCall.setup = 0 := by simpa [List.count_cons] using h0
      have := ih chans (consumer.ConsumeClaim sem claim w).world h1
      simp only [runHandlerCalls, closedChans_append, Consumer.ConsumeClaim,
        consumeMessages_closedChans, List.nil_append]
      exact this

theorem runHandlerCalls_one_setup {H W : Type} (sem : CallbackSem H W)
    (consumer : Consumer H) (calls : List HandlerCall) (chans : ChanHeap) (w : W)
    (h1 : calls.count HandlerCall.setup ≤ 1) (hlt : consumer.ready < chans.length)
    (hopen : chans.isClosed consumer.ready = false) :
    (runHandlerCalls sem consumer calls chans w).panic = none ∧
    (closedChans (runHandlerCalls sem consumer calls chans w).trace).length ≤ 1 := by
  induction calls generalizing chans w with
  | nil => exact ⟨rfl, by simp [runHandlerCalls, closedChans]⟩
  | cons c rest ih =>
    cases c with
    | setup =>
      have h0 : rest.count HandlerCall.setup = 0 := by
        simp [List.count_cons] at h1; exact h1
      have hc : chans.close consumer.ready = some (chans.set consumer.ready true) := by
        simp [ChanHeap.close, hlt, hopen]
      have := runHandlerCalls_no_setup sem consumer rest (chans.set consumer.ready true) w h0
      simp only [runHandlerCalls, Consumer.Setup, hc, closedChans, this.1, this.2]
      simp
    | cleanup =>
      have h2 : rest.count HandlerCall.setup ≤ 1 := by simpa [List.count_cons] using h1
      simpa [runHandlerCalls] using ih chans w h2 hlt hopen
    | consumeClaim claim =>
      have h2 : rest.count HandlerCall.setup ≤ 1 := by simpa [List.count_cons] using h1
      have := ih chans (consumer.ConsumeClaim sem claim w).world h2 hlt hopen
      simp only [runHandlerCalls, closedChans_append, Consumer.ConsumeClaim,
        consumeMessages_closedChans, List.nil_append]
      exact this

theorem ChanHeap.make_open (chans : ChanHeap) :
    chans.make.2 < chans.make.1.length ∧ chans.make.1.isClosed chans.make.2 = false := by
  simp [ChanHeap.make, ChanHeap.isClosed]

theorem dispatchLoop_cons_cases {H W : Type} (sem : CallbackSem H W) (l : Kafka H)
    (c : ConsumeCall) (rest : List ConsumeCall) (consumer : Consumer H) (chans : ChanHeap)
    (w : W) :
    ((dispatchLoop sem l (c :: rest) consumer chans w).trace =
        Effect.consume l.Option.ListTopics consumer.ready ::
          (runHandlerCalls sem consumer c.calls chans w).trace ∧
      ((dispatchLoop sem l (c :: rest) consumer chans w).status = LoopStatus.exited ∨
        (∃ e, (dispatchLoop sem l (c :: rest) consumer chans w).status =
          LoopStatus.panicked (Panic.errorFromConsumer e)) ∨
        (∃ p, (runHandlerCalls sem consumer c.calls chans w).panic = some p ∧
          (dispatchLoop sem l (c :: rest) consumer chans w).status = LoopStatus.panicked p))) ∨
    ((runHandlerCalls sem consumer c.calls chans w).panic = none ∧ c.err = none ∧
      c.ctxErr = false ∧
      (dispatchLoop sem l (c :: rest) consumer chans w).trace =
        Effect.consume l.Option.ListTopics consumer.ready ::
          ((runHandlerCalls sem consumer c.calls chans w).trace ++
            (dispatchLoop sem l rest
              { consumer with ready := (runHandlerCalls sem consumer c.calls chans w).chans.make.2 }
              (runHandlerCalls sem consumer c.calls chans w).chans.make.1
              (runHandlerCalls sem consumer c.calls chans w).world).trace) ∧
      (dispatchLoop sem l (c :: rest) consumer chans w).status =
        (dispatchLoop sem l rest
          { consumer with ready := (runHandlerCalls sem consumer c.calls chans w).chans.make.2 }
          (runHandlerCalls sem consumer c.calls chans w).chans.make.1
          (runHandlerCalls sem consumer c.calls chans w).world).status) := by
  cases hp : (runHandlerCalls sem consumer c.calls chans w).panic with
  | some p => left; simp [dispatchLoop, hp]
  | none =>
    cases he : c.err with
    | some e => left; simp [dispatchLoop, hp, he]
    | none =>
      cases hx : c.ctxErr with
      | true => left; simp [dispatchLoop, hp, he, hx]
      | false => right; simp [dispatchLoop, hp, he, hx]

theorem append_split_of_not_mem {α : Type} (a b pre post : List α) (x : α) (hx : x ∉ a)
    (h : a ++ b = pre ++ x :: post) : ∃ mid, pre = a ++ mid ∧ b = mid ++ x :: post := by
  induction a generalizing pre with
  | nil => exact ⟨pre, rfl, h⟩
  | cons y a ih =>
    cases pre with
    | nil =>
      simp only [List.cons_append, List.nil_append, List.cons.injEq] at h
      exact absurd (h.1 ▸ List.mem_cons_self _ _) hx
    | cons z pre =>
      simp only [List.cons_append, List.cons.injEq] at h
      obtain ⟨mid, h1, h2⟩ := ih pre (fun hm => hx (List.mem_cons_of_mem _ hm)) h.2
      exact ⟨mid, by rw [h.1, h1]; rfl, h2⟩

theorem dispatchLoop_chans_bound {H W : Type} (sem : CallbackSem H W) (l : Kafka H)
    (script : List ConsumeCall) (consumer : Consumer H) (chans : ChanHeap) (w : W) :
    (∀ c ∈ consumeChans (dispatchLoop sem l script consumer chans w).trace,
      c = consumer.ready ∨ chans.length ≤ c) ∧
    (∀ c ∈ closedChans (dispatchLoop sem l script consumer chans w).trace,
      c = consumer.ready ∨ chans.length ≤ c) := by
  induction script generalizing consumer chans w with
  | nil => simp [dispatchLoop, consumeChans, closedChans]
  | cons c rest ih =>
    have hcc := consumeChans_eq_nil _ (runHandlerCalls_no_consume sem consumer c.calls chans w)
    have hcl := runHandlerCalls_closedChans sem consumer c.calls chans w
    have hlen := runHandlerCalls_chans_length sem consumer c.calls chans w
    have hr : (runHandlerCalls sem consumer c.calls chans w).chans.make.2 = chans.length := by
      simp [ChanHeap.make, hlen]
    have hl : (runHandlerCalls sem consumer c.calls chans w).chans.make.1.length =
        chans.length + 1 := by
      simp [ChanHeap.make, hlen]
    rcases dispatchLoop_cons_cases sem l c rest consumer chans w with ⟨ht, _⟩ | ⟨_, _, _, ht, _⟩
    · rw [ht]
      constructor
      · intro x hx
        simp only [consumeChans, hcc, List.mem_singleton] at hx
        exact Or.inl hx
      · intro x hx
        simp only [closedChans] at hx
        exact Or.inl (hcl x hx)
    · rw [ht]
      obtain ⟨ih1, ih2⟩ :=
        ih { consumer with ready := (runHandlerCalls sem consumer c.calls chans w).chans.make.2 }
          (runHandlerCalls sem consumer c.calls chans w).chans.make.1
          (runHandlerCalls sem consumer c.calls chans w).world
      constructor
      · intro x hx
        simp only [consumeChans, consumeChans_append, hcc, List.nil_append, List.mem_cons] at hx
        rcases hx with hx | hx
        · exact Or.inl hx
        · right
          rcases ih1 x hx with h | h
          · have h' : x = (runHandlerCalls sem consumer c.calls chans w).chans.make.2 := h
            omega
          · omega
      · intro x hx
        simp only [closedChans, closedChans_append, List.mem_append] at hx
        rcases hx with hx | hx
        · exact Or.inl (hcl x hx)
        · right
          rcases ih2 x hx with h | h
          · have h' : x = (runHandlerCalls sem consumer c.calls chans w).chans.make.2 := h
            omega
          · omega

theorem dispatchLoop_latches {H W : Type} (sem : CallbackSem H W) (l : Kafka H)
    (script : List ConsumeCall) (consumer : Consumer H) (chans : ChanHeap) (w : W)
    (hlt : consumer.ready < chans.length) (hopen : chans.isClosed consumer.ready = false)
    (hs : ∀ c ∈ script, c.setups ≤ 1) :
    (dispatchLoop sem l script consumer chans w).status ≠
      LoopStatus.panicked Panic.closeOfClosedChannel ∧
    (closedChans (dispatchLoop sem l script consumer chans w).trace).Nodup ∧
    (∀ pre topics ch post,
      (dispatchLoop sem l script consumer chans w).trace =
        pre ++ Effect.consume topics ch :: post →
      ch ∉ closedChans pre ∧ ch ∉ consumeChans pre) := by
  induction script generalizing consumer chans w with
  | nil =>
    refine ⟨by simp [dispatchLoop], by simp [dispatchLoop, closedChans], ?_⟩
    intro pre topics ch post h
    simp only [dispatchLoop] at h
    cases pre with
    | nil => simp [closedChans, consumeChans]
    | cons e pre =>
      simp only [List.cons_append, List.cons.injEq] at h
      have := congrArg List.length h.2
      simp at this
      omega
  | cons c rest ih =>
    have hno := runHandlerCalls_no_consume sem consumer c.calls chans w
    have hcc := consumeChans_eq_nil _ hno
    have hcl := runHandlerCalls_closedChans sem consumer c.calls chans w
    have hlen := runHandlerCalls_chans_length sem consumer c.calls chans w
    have hone := runHandlerCalls_one_setup sem consumer c.calls chans w
      (hs c (List.mem_cons_self _ _)) hlt hopen
    have hnd : (closedChans (runHandlerCalls sem consumer c.calls chans w).trace).Nodup := by
      match hl : closedChans (runHandlerCalls sem consumer c.calls chans w).trace with
      | [] => simp
      | [x] => simp
      | x :: y :: t => rw [hl] at hone; simp at hone
    rcases dispatchLoop_cons_cases sem l c rest consumer chans w with
      ⟨ht, hst⟩ | ⟨_, _, _, ht, hst⟩
    · refine ⟨?_, ?_, ?_⟩
      · rcases hst with h | ⟨e, h⟩ | ⟨p, hp, _⟩
        · simp [h]
        · simp [h]
        · rw [hone.1] at hp; cases hp
      · rw [ht]; simpa [closedChans] using hnd
      · intro pre topics ch post h
        rw [ht] at h
        cases pre with
        | nil => simp [closedChans, consumeChans]
        | cons e pre =>
          simp only [List.cons_append, List.cons.injEq] at h
          exact absurd (h.2 ▸ List.mem_append_right pre (List.mem_cons_self _ _)) (hno topics ch)
    · have hmk := ChanHeap.make_open (runHandlerCalls sem consumer c.calls chans w).chans
      have hr : (runHandlerCalls sem consumer c.calls chans w).chans.make.2 = chans.length := by
        simp [ChanHeap.make, hlen]
      have hl : (runHandlerCalls sem consumer c.calls chans w).chans.make.1.length =
          chans.length + 1 := by
        simp [ChanHeap.make, hlen]
      obtain ⟨ih1, ih2, ih3⟩ :=
        ih { consumer with ready := (runHandlerCalls sem consumer c.calls chans w).chans.make.2 }
          (runHandlerCalls sem consumer c.calls chans w).chans.make.1
          (runHandlerCalls sem consumer c.calls chans w).world hmk.1 hmk.2
          (fun c' hc' => hs c' (List.mem_cons_of_mem _ hc'))
      obtain ⟨hb1, hb2⟩ := dispatchLoop_chans_bound sem l rest
        { consumer with ready := (runHandlerCalls sem consumer c.calls chans w).chans.make.2 }
        (runHandlerCalls sem consumer c.calls chans w).chans.make.1
        (runHandlerCalls sem consumer c.calls chans w).world
      have hge1 : ∀ x ∈ consumeChans (dispatchLoop sem l rest
          { consumer with ready := (runHandlerCalls sem consumer c.calls chans w).chans.make.2 }
          (runHandlerCalls sem consumer c.calls chans w).chans.make.1
          (runHandlerCalls sem consumer c.calls chans w).world).trace, chans.length ≤ x := by
        intro x hx
        rcases hb1 x hx with h | h
        · have h' : x = (runHandlerCalls sem consumer c.calls chans w).chans.make.2 := h
          omega
        · omega
      have hge2 : ∀ x ∈ closedChans (dispatchLoop sem l rest
          { consumer with ready := (runHandlerCalls sem consumer c.calls chans w).chans.make.2 }
          (runHandlerCalls sem consumer c.calls chans w).chans.make.1
          (runHandlerCalls sem consumer c.calls chans w).world).trace, chans.length ≤ x := by
        intro x hx
        rcases hb2 x hx with h | h
        · have h' : x = (runHandlerCalls sem consumer c.calls chans w).chans.make.2 := h
          omega
        · omega
      refine ⟨by rw [hst]; exact ih1, ?_, ?_⟩
      · rw [ht]
        simp only [closedChans, closedChans_append]
        refine List.Nodup.append hnd ih2 ?_
        intro x hx1 hx2
        have := hcl x hx1
        have := hge2 x hx2
        omega
      · intro pre topics ch post h
        rw [ht] at h
        cases pre with
        | nil => simp [closedChans, consumeChans]
        | cons e pre =>
          simp only [List.cons_append, List.cons.injEq] at h
          obtain ⟨he, h⟩ := h
          obtain ⟨mid, h1, h2⟩ := append_split_of_not_mem _ _ pre post _ (hno topics ch) h
          obtain ⟨i1, i2⟩ := ih3 mid topics ch post h2
          have hch : chans.length ≤ ch := by
            apply hge1
            rw [h2, consumeChans_append]
            simp [consumeChans]
          subst he
          subst h1
          simp only [closedChans, consumeChans, closedChans_append, consumeChans_append, hcc,
            List.nil_append, List.mem_append, List.mem_cons, not_or]
          refine ⟨⟨?_, i1⟩, ?_, i2⟩
          · intro hx
            have := hcl ch hx
            omega
          · omega

/-! ## Lemmas on what the callbacks return -/

theorem callbackResults_append {H : Type} (a b : List (Effect H)) :
    callbackResults (a ++ b) = callbackResults a ++ callbackResults b := by
  induction a with
  | nil => rfl
  | cons e rest ih => cases e <;> simp [callbackResults, ih]

theorem returnedBy_append {H W : Type} (sem : CallbackSem H W) (a b : List (H × Bytes))
    (w : W) :
    returnedBy sem (a ++ b) w = returnedBy sem a w ++ returnedBy sem b (worldAfter sem a w) := by
  induction a generalizing w with
  | nil => rfl
  | cons p rest ih =>
    obtain ⟨h, v⟩ := p
    rw [List.cons_append]
    simp only [returnedBy, worldAfter, ih, List.cons_append]

theorem worldAfter_append {H W : Type} (sem : CallbackSem H W) (a b : List (H × Bytes))
    (w : W) : worldAfter sem (a ++ b) w = worldAfter sem b (worldAfter sem a w) := by
  induction a generalizing w with
  | nil => rfl
  | cons p rest ih =>
    obtain ⟨h, v⟩ := p
    rw [List.cons_append]
    simp only [worldAfter, ih]

theorem runCallbacks_results {H W : Type} (sem : CallbackSem H W) (hs : List H)
    (v : Bytes) (w : W) :
    callbackResults (runCallbacks sem hs v w).1 = returnedBy sem (hs.map (fun h => (h, v))) w ∧
    (runCallbacks sem hs v w).2 = worldAfter sem (hs.map (fun h => (h, v))) w := by
  induction hs generalizing w with
  | nil => exact ⟨rfl, rfl⟩
  | cons h rest ih =>
    obtain ⟨i1, i2⟩ := ih (sem h v w).2
    simp only [runCallbacks, List.map_cons, returnedBy, worldAfter]
    constructor
    · cases hr : (sem h v w).1 <;> simp [callbackResults, callbackResults_append, i1]
    · exact i2

theorem runCallbacks_errorLogs {H W : Type} (sem : CallbackSem H W) (hs : List H)
    (v : Bytes) (w : W) :
    errorLogs (runCallbacks sem hs v w).1 =
      (returnedBy sem (hs.map (fun h => (h, v))) w).reduceOption := by
  induction hs generalizing w with
  | nil => rfl
  | cons h rest ih =>
    simp only [runCallbacks, List.map_cons, returnedBy]
    cases hr : (sem h v w).1 <;>
      simp [errorLogs, errorLogs_append, ih, List.reduceOption_cons_of_some,
        List.reduceOption_cons_of_none]

theorem runCallbacks_loggedAtOnce {H W : Type} (sem : CallbackSem H W) (hs : List H)
    (v : Bytes) (w : W) (rest : List (Effect H)) :
    loggedAtOnce ((runCallbacks sem hs v w).1 ++ rest) = loggedAtOnce rest := by
  induction hs generalizing w with
  | nil => rfl
  | cons h hs ih =>
    simp only [runCallbacks]
    cases hr : (sem h v w).1 with
    | none => simpa [loggedAtOnce] using ih (sem h v w).2
    | some e => simpa [loggedAtOnce] using ih (sem h v w).2

theorem consumeMessages_results {H W : Type} (sem : CallbackSem H W) (consumer : Consumer H)
    (claim : List Message) (w : W) :
    callbackResults (consumeMessages sem consumer claim w).1 =
      returnedBy sem (claim.flatMap (expectedCalls consumer.CallbackFunctions)) w ∧
    errorLogs (consumeMessages sem consumer claim w).1 =
      (returnedBy sem (claim.flatMap (expectedCalls consumer.CallbackFunctions)) w).reduceOption ∧
    (consumeMessages sem consumer claim w).2 =
      worldAfter sem (claim.flatMap (expectedCalls consumer.CallbackFunctions)) w ∧
    loggedAtOnce (consumeMessages sem consumer claim w).1 = true := by
  induction claim generalizing w with
  | nil => exact ⟨rfl, rfl, rfl, rfl⟩
  | cons m rest ih =>
    have hr := runCallbacks_results sem (consumer.CallbackFunctions.get m.Topic) m.Value w
    have he := runCallbacks_errorLogs sem (consumer.CallbackFunctions.get m.Topic) m.Value w
    obtain ⟨i1, i2, i3, i4⟩ :=
      ih (runCallbacks sem (consumer.CallbackFunctions.get m.Topic) m.Value w).2
    rw [hr.2] at i1 i2 i3
    simp only [consumeMessages, List.flatMap_cons, expectedCalls, returnedBy_append,
      worldAfter_append, List.reduceOption_append]
    refine ⟨?_, ?_, ?_, ?_⟩
    · simp only [callbackResults, callbackResults_append, hr.1]
      rw [hr.2]
      exact congrArg _ i1
    · simp only [errorLogs, errorLogs_append, he]
      rw [hr.2]
      exact congrArg _ i2
    · rw [hr.2]; exact i3
    · simp only [loggedAtOnce]
      rw [runCallbacks_loggedAtOnce]
      exact i4

/-! ## Lemmas on the messages of a script -/

theorem consumeMessages_invocations {H W : Type} (sem : CallbackSem H W)
    (consumer : Consumer H) (claim : List Message) (w : W) :
    invocations (consumeMessages sem consumer claim w).1 =
      claim.flatMap (expectedCalls consumer.CallbackFunctions) := by
  induction claim generalizing w with
  | nil => rfl
  | cons m rest ih =>
    simp [consumeMessages, invocations, invocations_append, runCallbacks_invocations, ih,
      expectedCalls]

theorem runHandlerCalls_invocations {H W : Type} (sem : CallbackSem H W)
    (consumer : Consumer H) (calls : List HandlerCall) (chans : ChanHeap) (w : W)
    (hp : (runHandlerCalls sem consumer calls chans w).panic = none) :
    invocations (runHandlerCalls sem consumer calls chans w).trace =
      (calls.flatMap HandlerCall.messages).flatMap
        (expectedCalls consumer.CallbackFunctions) := by
  induction calls generalizing chans w with
  | nil => rfl
  | cons c rest ih =>
    cases c with
    | setup =>
      simp only [runHandlerCalls, Consumer.Setup] at hp ⊢
      cases hc : chans.close consumer.ready with
      | none => simp [hc] at hp
      | some chans1 =>
        simp only [hc] at hp ⊢
        simpa [invocations, HandlerCall.messages] using ih chans1 w hp
    | cleanup =>
      simp only [runHandlerCalls] at hp ⊢
      simpa [HandlerCall.messages] using ih chans w hp
    | consumeClaim claim =>
      simp only [runHandlerCalls] at hp ⊢
      simp only [invocations_append, Consumer.ConsumeClaim, consumeMessages_invocations,
        List.flatMap_cons, HandlerCall.messages, List.flatMap_append]
      exact congrArg _ (ih chans _ hp)

theorem dispatchLoop_normal_returns {H W : Type} (sem : CallbackSem H W) (l : Kafka H)
    (pre : List ConsumeCall) (last : ConsumeCall) (rest : List ConsumeCall)
    (consumer : Consumer H) (chans : ChanHeap) (w : W)
    (hlt : consumer.ready < chans.length) (hopen : chans.isClosed consumer.ready = false)
    (hpre : ∀ c ∈ pre, c.err = none ∧ c.ctxErr = false ∧ c.setups ≤ 1)
    (hsetups : last.setups ≤ 1) (hctx : last.err = none → last.ctxErr = true) :
    consumeCount (dispatchLoop sem l (pre ++ last :: rest) consumer chans w).trace =
      pre.length + 1 ∧
    (dispatchLoop sem l (pre ++ last :: rest) consumer chans w).status =
      (match last.err with
       | none => LoopStatus.exited
       | some e => LoopStatus.panicked (Panic.errorFromConsumer e)) ∧
    invocations (dispatchLoop sem l (pre ++ last :: rest) consumer chans w).trace =
      ((pre ++ [last]).flatMap ConsumeCall.messages).flatMap
        (expectedCalls consumer.CallbackFunctions) := by
  induction pre generalizing consumer chans w with
  | nil =>
    have hp := (runHandlerCalls_one_setup sem consumer last.calls chans w hsetups hlt hopen).1
    have hz := consumeCount_eq_zero _
      (runHandlerCalls_no_consume sem consumer last.calls chans w)
    have hi := runHandlerCalls_invocations sem consumer last.calls chans w hp
    simp only [List.nil_append, dispatchLoop, hp, List.length_nil]
    cases he : last.err with
    | some e => simp [consumeCount, hz, invocations, hi, ConsumeCall.messages]
    | none => simp [hctx he, consumeCount, hz, invocations, hi, ConsumeCall.messages]
  | cons c pre ih =>
    obtain ⟨he, hx, hs⟩ := hpre c (List.mem_cons_self _ _)
    have hp := (runHandlerCalls_one_setup sem consumer c.calls chans w hs hlt hopen).1
    have hz := consumeCount_eq_zero _
      (runHandlerCalls_no_consume sem consumer c.calls chans w)
    have hi := runHandlerCalls_invocations sem consumer c.calls chans w hp
    have hmk := ChanHeap.make_open (runHandlerCalls sem consumer c.calls chans w).chans
    have := ih { consumer with ready := (runHandlerCalls sem consumer c.calls chans w).chans.make.2 }
      (runHandlerCalls sem consumer c.calls chans w).chans.make.1
      (runHandlerCalls sem consumer c.calls chans w).world hmk.1 hmk.2
      (fun c' hc' => hpre c' (List.mem_cons_of_mem _ hc'))
    rw [List.cons_append, List.cons_append]
    simp only [dispatchLoop, hp, he, hx, Bool.false_eq_true, if_false,
      consumeCount, consumeCount_append, hz, List.length_cons, this.1, this.2.1,
      invocations, invocations_append, hi, this.2.2, List.flatMap_cons, List.flatMap_append,
      ConsumeCall.messages]
    refine ⟨by omega, trivial, trivial⟩

theorem dispatchLoop_blocked {H W : Type} (sem : CallbackSem H W) (l : Kafka H)
    (script : List ConsumeCall) (consumer : Consumer H) (chans : ChanHeap) (w : W)
    (hlt : consumer.ready < chans.length) (hopen : chans.isClosed consumer.ready = false)
    (hall : ∀ c ∈ script, c.err = none ∧ c.ctxErr = false ∧ c.setups ≤ 1) :
    consumeCount (dispatchLoop sem l script consumer chans w).trace = script.length + 1 ∧
    (dispatchLoop sem l script consumer chans w).status = LoopStatus.blocked ∧
    invocations (dispatchLoop sem l script consumer chans w).trace =
      (script.flatMap ConsumeCall.messages).flatMap
        (expectedCalls consumer.CallbackFunctions) := by
  induction script generalizing consumer chans w with
  | nil => simp [dispatchLoop, consumeCount, invocations]
  | cons c rest ih =>
    obtain ⟨he, hx, hs⟩ := hall c (List.mem_cons_self _ _)
    have hp := (runHandlerCalls_one_setup sem consumer c.calls chans w hs hlt hopen).1
    have hz := consumeCount_eq_zero _
      (runHandlerCalls_no_consume sem consumer c.calls chans w)
    have hi := runHandlerCalls_invocations sem consumer c.calls chans w hp
    have hmk := ChanHeap.make_open (runHandlerCalls sem consumer c.calls chans w).chans
    have := ih { consumer with ready := (runHandlerCalls sem consumer c.calls chans w).chans.make.2 }
      (runHandlerCalls sem consumer c.calls chans w).chans.make.1
      (runHandlerCalls sem consumer c.calls chans w).world hmk.1 hmk.2
      (fun c' hc' => hall c' (List.mem_cons_of_mem _ hc'))
    simp only [dispatchLoop, hp, he, hx, Bool.false_eq_true, if_false,
      consumeCount, consumeCount_append, hz, List.length_cons, this.1, this.2.1,
      invocations, invocations_append, hi, this.2.2, List.flatMap_cons, List.flatMap_append,
      ConsumeCall.messages]
    refine ⟨by omega, trivial, trivial⟩

/-! ## Lemmas on the controller -/

theorem ListenState.run_append {H : Type} (env : ListenEnv) (l : Kafka H) (facts : LoopFacts)
    (s : ListenState H) (a b : List ListenEvent) :
    s.run env l facts (a ++ b) = (s.run env l facts a).run env l facts b := by
  simp [ListenState.run, List.foldl_append]

theorem ListenState.run_cons {H : Type} (env : ListenEnv) (l : Kafka H) (facts : LoopFacts)
    (s : ListenState H) (ev : ListenEvent) (rest : List ListenEvent) :
    s.run env l facts (ev :: rest) = (s.deliver env l facts ev).run env l facts rest := rfl

theorem ListenEnv.afterClose_final (env : ListenEnv) : env.afterClose.final = true := by
  unfold ListenEnv.afterClose
  cases env.closeErr <;> rfl

theorem ListenState.deliver_final {H : Type} (env : ListenEnv) (l : Kafka H)
    (facts : LoopFacts) (s : ListenState H) (ev : ListenEvent) (h : s.pc.final = true) :
    s.deliver env l facts ev = s := by
  simp [ListenState.deliver, h]

theorem ListenState.run_final {H : Type} (env : ListenEnv) (l : Kafka H) (facts : LoopFacts)
    (events : List ListenEvent) (s : ListenState H) (h : s.pc.final = true) :
    s.run env l facts events = s := by
  induction events with
  | nil => rfl
  | cons ev rest ih =>
    rw [ListenState.run_cons, ListenState.deliver_final env l facts s ev h, ih]

theorem ListenState.run_before_ready {H : Type} (env : ListenEnv) (l : Kafka H)
    (facts : LoopFacts) (hp : facts.panicked = false) (pre : List ListenEvent)
    (hpre : ∀ ev ∈ pre, ev ≠ ListenEvent.readyClosed ∧
      (ev = ListenEvent.signal → env.unsubscribed = Disposition.ignore))
    (d : Bool) :
    ∃ d', ({ ListenState.start H with loopDone := d }).run env l facts pre =
      { ListenState.start H with loopDone := d' } := by
  induction pre generalizing d with
  | nil => exact ⟨d, rfl⟩
  | cons ev rest ih =>
    have hrest : ∀ ev ∈ rest, ev ≠ ListenEvent.readyClosed ∧
        (ev = ListenEvent.signal → env.unsubscribed = Disposition.ignore) :=
      fun e he => hpre e (List.mem_cons_of_mem _ he)
    obtain ⟨h1, h2⟩ := hpre ev (List.mem_cons_self _ _)
    rw [ListenState.run_cons]
    cases ev with
    | readyClosed => exact absurd rfl h1
    | signal =>
      have : ({ ListenState.start H with loopDone := d }).deliver env l facts
          ListenEvent.signal = { ListenState.start H with loopDone := d } := by
        simp [ListenState.deliver, ListenState.start, ListenPc.final, h2 rfl]
      rw [this]
      exact ih hrest d
    | loopPanicked =>
      have : ({ ListenState.start H with loopDone := d }).deliver env l facts
          ListenEvent.loopPanicked = { ListenState.start H with loopDone := d } := by
        simp [ListenState.deliver, ListenState.start, ListenPc.final, hp]
      rw [this]
      exact ih hrest d
    | loopDone =>
      cases hx : facts.exited with
      | false =>
        have : ({ ListenState.start H with loopDone := d }).deliver env l facts
            ListenEvent.loopDone = { ListenState.start H with loopDone := d } := by
          simp [ListenState.deliver, ListenState.start, ListenPc.final, hx]
        rw [this]
        exact ih hrest d
      | true =>
        have : ({ ListenState.start H with loopDone := d }).deliver env l facts
            ListenEvent.loopDone = { ListenState.start H with loopDone := true } := by
          simp [ListenState.deliver, ListenState.start, ListenPc.final, ListenState.settle,
            ListenState.advance, hx]
        rw [this]
        exact ih hrest true

theorem ListenState.ready_closed {H : Type} (env : ListenEnv) (l : Kafka H)
    (facts : LoopFacts) (hr : facts.readyClosed = true) (d : Bool) :
    (({ ListenState.start H with loopDone := d }).deliver env l facts
      ListenEvent.readyClosed).inPhase env l ListenPhase.waitingSignal := by
  simp [ListenState.deliver, ListenState.start, ListenPc.final, ListenState.settle,
    ListenState.advance, ListenState.inPhase, hr]

theorem ListenState.deliver_subscribed {H : Type} (env : ListenEnv) (l : Kafka H)
    (facts : LoopFacts) (hx : facts.exited = true) (hp : facts.panicked = false)
    (s : ListenState H) (ev : ListenEvent)
    (hs : s.inPhase env l ListenPhase.waitingSignal ∨ s.inPhase env l ListenPhase.waitingLoop ∨
      s.inPhase env l ListenPhase.closed) :
    ((s.deliver env l facts ev).inPhase env l ListenPhase.waitingSignal ∧
        ev ≠ ListenEvent.signal) ∨
      (s.deliver env l facts ev).inPhase env l ListenPhase.waitingLoop ∨
      (s.deliver env l facts ev).inPhase env l ListenPhase.closed := by
  obtain ⟨pc, rc, sub, sig, can, ld, tr⟩ := s
  rcases hs with h | h | h
  · simp only [ListenState.inPhase] at h
    obtain ⟨h1, h2, h3, h4, h5⟩ := h
    subst h1 h2 h3 h4 h5
    cases ev with
    | loopPanicked =>
      left
      simp [ListenState.deliver, ListenPc.final, ListenState.inPhase, hp]
    | readyClosed =>
      left
      cases hr : facts.readyClosed <;>
        simp [ListenState.deliver, ListenPc.final, ListenState.settle, ListenState.advance,
          ListenState.inPhase, hr]
    | loopDone =>
      left
      simp [ListenState.deliver, ListenPc.final, ListenState.settle, ListenState.advance,
        ListenState.inPhase, hx]
    | signal =>
      right
      cases ld <;> cases hc : env.closeErr <;>
        simp [ListenState.deliver, ListenPc.final, ListenState.settle, ListenState.advance,
          ListenState.inPhase, ListenEnv.afterClose, hc]
  · simp only [ListenState.inPhase] at h
    obtain ⟨h1, h2, h3, h5⟩ := h
    subst h1 h2 h3 h5
    right
    cases ev with
    | loopPanicked =>
      left
      simp [ListenState.deliver, ListenPc.final, ListenState.inPhase, hp]
    | readyClosed =>
      left
      cases hr : facts.readyClosed <;>
        simp [ListenState.deliver, ListenPc.final, ListenState.settle, ListenState.advance,
          ListenState.inPhase, hr]
    | signal =>
      left
      simp [ListenState.deliver, ListenPc.final, ListenState.settle, ListenState.advance,
        ListenState.inPhase]
    | loopDone =>
      right
      cases hc : env.closeErr <;>
        simp [ListenState.deliver, ListenPc.final, ListenState.settle, ListenState.advance,
          ListenState.inPhase, ListenEnv.afterClose, hc, hx]
  · right; right
    have hf : (ListenState.mk pc rc sub sig can ld tr).pc.final = true := by
      simp only [ListenState.inPhase] at h
      rw [h.1]; exact env.afterClose_final
    rw [ListenState.deliver_final env l facts _ ev hf]
    exact h

theorem ListenState.deliver_cancelled {H : Type} (env : ListenEnv) (l : Kafka H)
    (facts : LoopFacts) (hx : facts.exited = true) (hp : facts.panicked = false)
    (s : ListenState H) (ev : ListenEvent)
    (hs : s.inPhase env l ListenPhase.waitingLoop ∨ s.inPhase env l ListenPhase.closed) :
    ((s.deliver env l facts ev).inPhase env l ListenPhase.waitingLoop ∧
        ev ≠ ListenEvent.loopDone) ∨
      (s.deliver env l facts ev).inPhase env l ListenPhase.closed := by
  obtain ⟨pc, rc, sub, sig, can, ld, tr⟩ := s
  rcases hs with h | h
  · simp only [ListenState.inPhase] at h
    obtain ⟨h1, h2, h3, h5⟩ := h
    subst h1 h2 h3 h5
    cases ev with
    | loopPanicked =>
      left
      simp [ListenState.deliver, ListenPc.final, ListenState.inPhase, hp]
    | readyClosed =>
      left
      cases hr : facts.readyClosed <;>
        simp [ListenState.deliver, ListenPc.final, ListenState.settle, ListenState.advance,
          ListenState.inPhase, hr]
    | signal =>
      left
      simp [ListenState.deliver, ListenPc.final, ListenState.settle, ListenState.advance,
        ListenState.inPhase]
    | loopDone =>
      right
      cases hc : env.closeErr <;>
        simp [ListenState.deliver, ListenPc.final, ListenState.settle, ListenState.advance,
          ListenState.inPhase, ListenEnv.afterClose, hc, hx]
  · right
    have hf : (ListenState.mk pc rc sub sig can ld tr).pc.final = true := by
      simp only [ListenState.inPhase] at h
      rw [h.1]; exact env.afterClose_final
    rw [ListenState.deliver_final env l facts _ ev hf]
    exact h

theorem ListenState.run_subscribed {H : Type} (env : ListenEnv) (l : Kafka H)
    (facts : LoopFacts) (hx : facts.exited = true) (hp : facts.panicked = false)
    (events : List ListenEvent) (s : ListenState H)
    (hs : s.inPhase env l ListenPhase.waitingSignal ∨ s.inPhase env l ListenPhase.waitingLoop ∨
      s.inPhase env l ListenPhase.closed) :
    (s.run env l facts events).inPhase env l ListenPhase.waitingSignal ∨
      (s.run env l facts events).inPhase env l ListenPhase.waitingLoop ∨
      (s.run env l facts events).inPhase env l ListenPhase.closed := by
  induction events generalizing s with
  | nil => exact hs
  | cons ev rest ih =>
    rw [ListenState.run_cons]
    apply ih
    rcases ListenState.deliver_subscribed env l facts hx hp s ev hs with h | h | h
    · exact Or.inl h.1
    · exact Or.inr (Or.inl h)
    · exact Or.inr (Or.inr h)

theorem ListenState.run_cancelled {H : Type} (env : ListenEnv) (l : Kafka H)
    (facts : LoopFacts) (hx : facts.exited = true) (hp : facts.panicked = false)
    (events : List ListenEvent) (s : ListenState H)
    (hs : s.inPhase env l ListenPhase.waitingLoop ∨ s.inPhase env l ListenPhase.closed) :
    (s.run env l facts events).inPhase env l ListenPhase.waitingLoop ∨
      (s.run env l facts events).inPhase env l ListenPhase.closed := by
  induction events generalizing s with
  | nil => exact hs
  | cons ev rest ih =>
    rw [ListenState.run_cons]
    apply ih
    rcases ListenState.deliver_cancelled env l facts hx hp s ev hs with h | h
    · exact Or.inl h.1
    · exact Or.inr h

theorem ListenState.run_shutdown {H : Type} (env : ListenEnv) (l : Kafka H)
    (facts : LoopFacts) (hr : facts.readyClosed = true) (hx : facts.exited = true)
    (hp : facts.panicked = false) (pre mid post rest : List ListenEvent)
    (hpre : ∀ ev ∈ pre, ev ≠ ListenEvent.readyClosed ∧
      (ev = ListenEvent.signal → env.unsubscribed = Disposition.ignore)) :
    ((ListenState.start H).run env l facts
      (pre ++ ListenEvent.readyClosed :: (mid ++ ListenEvent.signal ::
        (post ++ ListenEvent.loopDone :: rest)))).inPhase env l ListenPhase.closed := by
  obtain ⟨d, hd⟩ := ListenState.run_before_ready env l facts hp pre hpre false
  have hstart : ({ ListenState.start H with loopDone := false } : ListenState H) =
      ListenState.start H := rfl
  rw [hstart] at hd
  rw [ListenState.run_append, hd, ListenState.run_cons, ListenState.run_append,
    ListenState.run_cons, ListenState.run_append, ListenState.run_cons]
  have h1 := ListenState.run_subscribed env l facts hx hp mid _
    (Or.inl (ListenState.ready_closed env l facts hr d))
  have h2 : ((((({ ListenState.start H with loopDone := d }).deliver env l facts
      ListenEvent.readyClosed).run env l facts mid).deliver env l facts
        ListenEvent.signal).inPhase env l ListenPhase.waitingLoop) ∨
      ((((({ ListenState.start H with loopDone := d }).deliver env l facts
      ListenEvent.readyClosed).run env l facts mid).deliver env l facts
        ListenEvent.signal).inPhase env l ListenPhase.closed) := by
    rcases ListenState.deliver_subscribed env l facts hx hp _ ListenEvent.signal h1 with
      h | h | h
    · exact absurd rfl h.2
    · exact Or.inl h
    · exact Or.inr h
  have h3 := ListenState.run_cancelled env l facts hx hp post _ h2
  have h4 : ((((((({ ListenState.start H with loopDone := d }).deliver env l facts
      ListenEvent.readyClosed).run env l facts mid).deliver env l facts
        ListenEvent.signal).run env l facts post).deliver env l facts
          ListenEvent.loopDone).inPhase env l ListenPhase.closed) := by
    rcases ListenState.deliver_cancelled env l facts hx hp _ ListenEvent.loopDone h3 with h | h
    · exact absurd rfl h.2
    · exact h
  rw [ListenState.run_final env l facts rest _ (by rw [h4.1]; exact env.afterClose_final)]
  exact h4

theorem ListenState.advance_grounded {H : Type} (env : ListenEnv) (l : Kafka H)
    (facts : LoopFacts) (s : ListenState H) (done : List ListenEvent)
    (h : s.grounded facts done) : (s.advance env l).grounded facts done := by
  unfold ListenState.advance
  split
  · split
    · rename_i hrc
      simp only [ListenState.grounded] at h ⊢
      obtain ⟨g1, g2, g3, g4, g5, g6⟩ := h
      refine ⟨g1, g2, fun _ => hrc, ?_, ?_, ?_⟩
      · intro hh; apply g4; simpa using hh
      · intro hh; apply g5; simpa using hh
      · intro hh; have := g6 hh; simp [this]
    · exact h
  · split
    · rename_i hcan
      simp only [ListenState.grounded] at h ⊢
      obtain ⟨g1, g2, g3, g4, g5, g6⟩ := h
      refine ⟨g1, g2, g3, ?_, ?_, ?_⟩
      · intro _; exact g4 (Or.inr (g6 hcan))
      · intro hh; apply g5; simpa using hh
      · intro _; simp
    · split
      · rename_i hsig
        simp only [ListenState.grounded] at h ⊢
        obtain ⟨g1, g2, g3, g4, g5, g6⟩ := h
        refine ⟨g1, g2, g3, ?_, ?_, ?_⟩
        · intro _; exact g4 (Or.inl hsig)
        · intro hh; apply g5; simpa using hh
        · intro _; simp
      · exact h
  · split
    · rename_i hld
      split
      · simp only [ListenState.grounded] at h ⊢
        obtain ⟨g1, g2, g3, g4, g5, g6⟩ := h
        refine ⟨g1, g2, g3, ?_, fun _ => hld, ?_⟩
        · intro hh; apply g4; simpa using hh
        · intro hh; have := g6 hh; simp [this]
      · simp only [ListenState.grounded] at h ⊢
        obtain ⟨g1, g2, g3, g4, g5, g6⟩ := h
        refine ⟨g1, g2, g3, ?_, fun _ => hld, ?_⟩
        · intro hh; apply g4; simpa using hh
        · intro hh; have := g6 hh; simp [this]
    · exact h
  · exact h

theorem ListenState.settle_grounded {H : Type} (env : ListenEnv) (l : Kafka H)
    (facts : LoopFacts) (s : ListenState H) (done : List ListenEvent)
    (h : s.grounded facts done) : (s.settle env l).grounded facts done := by
  unfold ListenState.settle
  exact ListenState.advance_grounded env l facts _ done
    (ListenState.advance_grounded env l facts _ done
      (ListenState.advance_grounded env l facts _ done h))

theorem ListenState.grounded_later {H : Type} (facts : LoopFacts) (s : ListenState H)
    (done : List ListenEvent) (ev : ListenEvent) (h : s.grounded facts done) :
    s.grounded facts (done ++ [ev]) := by
  simp only [ListenState.grounded] at h ⊢
  obtain ⟨g1, g2, g3, g4, g5, g6⟩ := h
  refine ⟨fun h => ⟨List.mem_append_left _ (g1 h).1, (g1 h).2⟩,
    fun h => ⟨List.mem_append_left _ (g2 h).1, (g2 h).2⟩, g3, ?_, g5, g6⟩
  intro h
  obtain ⟨⟨pre, post, h1, h2⟩, hf⟩ := g4 h
  exact ⟨⟨pre, post ++ [ev], by rw [h1]; simp, h2⟩, hf⟩

theorem ListenState.deliver_grounded {H : Type} (env : ListenEnv) (l : Kafka H)
    (facts : LoopFacts) (s : ListenState H) (done : List ListenEvent) (ev : ListenEvent)
    (h : s.grounded facts done) : (s.deliver env l facts ev).grounded facts (done ++ [ev]) := by
  have hl := ListenState.grounded_later facts s done ev h
  unfold ListenState.deliver
  split
  · exact hl
  · cases ev with
    | readyClosed =>
      simp only
      split
      · rename_i hr
        apply ListenState.settle_grounded
        simp only [ListenState.grounded] at hl ⊢
        obtain ⟨g1, g2, g3, g4, g5, g6⟩ := hl
        exact ⟨fun _ => ⟨List.mem_append_right _ (List.mem_singleton.mpr rfl), hr⟩, g2,
          fun _ => trivial, g4, g5, g6⟩
      · exact hl
    | signal =>
      simp only
      split
      · rename_i hsub
        apply ListenState.settle_grounded
        simp only [ListenState.grounded] at h hl ⊢
        obtain ⟨g1, g2, g3, g4, g5, g6⟩ := hl
        refine ⟨g1, g2, g3, ?_, g5, g6⟩
        intro _
        exact ⟨⟨done, [], rfl, (h.1 (h.2.2.1 hsub)).1⟩, (h.1 (h.2.2.1 hsub)).2⟩
      · split
        · exact hl
        · exact hl
    | loopDone =>
      simp only
      split
      · rename_i hx
        apply ListenState.settle_grounded
        simp only [ListenState.grounded] at hl ⊢
        obtain ⟨g1, g2, g3, g4, g5, g6⟩ := hl
        exact ⟨g1, fun _ => ⟨List.mem_append_right _ (List.mem_singleton.mpr rfl), hx⟩, g3, g4,
          fun _ => trivial, g6⟩
      · exact hl
    | loopPanicked =>
      simp only
      split
      · exact hl
      · exact hl

theorem ListenState.run_grounded {H : Type} (env : ListenEnv) (l : Kafka H)
    (facts : LoopFacts) (events : List ListenEvent) (s : ListenState H)
    (done : List ListenEvent) (h : s.grounded facts done) :
    (s.run env l facts events).grounded facts (done ++ events) := by
  induction events generalizing s done with
  | nil => simpa [ListenState.run] using h
  | cons ev rest ih =>
    rw [ListenState.run_cons]
    have := ih (s.deliver env l facts ev) (done ++ [ev])
      (ListenState.deliver_grounded env l facts s done ev h)
    simpa using this

theorem ListenState.advance_ordered {H : Type} (env : ListenEnv) (l : Kafka H)
    (s : ListenState H) (h : s.ordered l) : (s.advance env l).ordered l := by
  obtain ⟨pc, rc, sub, sig, can, ld, tr⟩ := s
  simp only [ListenState.ordered] at h
  obtain ⟨o1, o2, o3, o4⟩ := h
  cases pc with
  | awaitReady =>
    obtain ⟨ht, hc⟩ := o1 rfl
    subst ht hc
    cases rc <;> simp [ListenState.ordered, ListenState.advance]
  | awaitShutdown =>
    obtain ⟨ht, hc⟩ := o2 rfl
    subst ht hc
    cases sig <;> simp [ListenState.ordered, ListenState.advance]
  | awaitLoop =>
    have ht := o3 rfl
    subst ht
    cases ld <;> cases hc : env.closeErr <;>
      simp [ListenState.ordered, ListenState.advance, hc]
  | returned => simpa [ListenState.ordered, ListenState.advance] using o4
  | panicked p => simpa [ListenState.ordered, ListenState.advance] using o4
  | terminatedBySignal => simpa [ListenState.ordered, ListenState.advance] using o4
  | endedByLoopPanic => simpa [ListenState.ordered, ListenState.advance] using o4

theorem ListenState.deliver_ordered {H : Type} (env : ListenEnv) (l : Kafka H)
    (facts : LoopFacts) (s : ListenState H) (ev : ListenEvent) (h : s.ordered l) :
    (s.deliver env l facts ev).ordered l := by
  have hset : ∀ t : ListenState H, t.ordered l → (t.settle env l).ordered l := by
    intro t ht
    unfold ListenState.settle
    exact ListenState.advance_ordered env l _
      (ListenState.advance_ordered env l _ (ListenState.advance_ordered env l _ ht))
  unfold ListenState.deliver
  split
  · exact h
  · cases ev with
    | readyClosed =>
      simp only
      split
      · exact hset _ h
      · exact h
    | signal =>
      simp only
      split
      · exact hset _ h
      · split
        · simp only [ListenState.ordered] at h ⊢
          exact ⟨by simp, by simp, by simp, h.2.2.2⟩
        · exact h
    | loopDone =>
      simp only
      split
      · exact hset _ h
      · exact h
    | loopPanicked =>
      simp only
      split
      · simp only [ListenState.ordered] at h ⊢
        exact ⟨by simp, by simp, by simp, h.2.2.2⟩
      · exact h

theorem ListenState.run_ordered {H : Type} (env : ListenEnv) (l : Kafka H)
    (facts : LoopFacts) (events : List ListenEvent) (s : ListenState H) (h : s.ordered l) :
    (s.run env l facts events).ordered l := by
  induction events generalizing s with
  | nil => exact h
  | cons ev rest ih =>
    rw [ListenState.run_cons]
    exact ih _ (ListenState.deliver_ordered env l facts s ev h)

theorem ListenState.start_grounded {H : Type} (facts : LoopFacts) :
    (ListenState.start H).grounded facts [] := by
  simp [ListenState.grounded, ListenState.start]

theorem ListenState.start_ordered {H : Type} (l : Kafka H) :
    (ListenState.start H).ordered l := by
  simp [ListenState.ordered, ListenState.start]

theorem shutdown_prefix_cancel {H : Type} (host : List String) (t : List (Effect H))
    (hp : t <+: [Effect.spawnLoop, Effect.logReady host, Effect.notifySignals,
      Effect.logViaSignal, Effect.cancel, Effect.close])
    (hc : Effect.close ∈ t) : Effect.cancel ∈ t := by
  rw [List.prefix_iff_eq_take] at hp
  generalize t.length = n at hp
  subst hp
  match n with
  | 0 => simp at hc
  | 1 => simp at hc
  | 2 => simp at hc
  | 3 => simp at hc
  | 4 => simp at hc
  | 5 => simp
  | n + 6 => simp

/-! ## The failure claim of `ConsumeClaim` -/

/-- Claim C4.  For every message stream and every behaviour of the callbacks,
`ConsumeClaim` returns `nil`.  The results its callback invocations record are
the values the callbacks return when they are invoked in order, each in the
world the one before it left; the arguments of its `Log.Error` calls are
exactly the failures among these values, in invocation order; every failing
invocation is followed at once by the `Log.Error` call with its failure and
`Log.Error` is called nowhere else; and every registered callback is invoked
for every message, also after a callback registered before it has failed. -/
theorem ConsumeClaim_absorbs_failures {H W : Type} (sem : CallbackSem H W)
    (consumer : Consumer H) (claim : List Message) (w : W) :
    (consumer.ConsumeClaim sem claim w).err = none ∧
    callbackResults (consumer.ConsumeClaim sem claim w).trace =
      returnedBy sem (claim.flatMap (expectedCalls consumer.CallbackFunctions)) w ∧
    errorLogs (consumer.ConsumeClaim sem claim w).trace =
      (returnedBy sem
        (claim.flatMap (expectedCalls consumer.CallbackFunctions)) w).reduceOption ∧
    loggedAtOnce (consumer.ConsumeClaim sem claim w).trace = true ∧
    errorLogs (consumer.ConsumeClaim sem claim w).trace =
      failures (consumer.ConsumeClaim sem claim w).trace ∧
    invocations (consumer.ConsumeClaim sem claim w).trace =
      claim.flatMap
        (fun m => (consumer.CallbackFunctions.get m.Topic).map (fun h => (h, m.Value))) ∧
    (consumer.ConsumeClaim sem claim w).world =
      worldAfter sem (claim.flatMap (expectedCalls consumer.CallbackFunctions)) w := by
  have hlogs : errorLogs (consumer.ConsumeClaim sem claim w).trace =
      failures (consumer.ConsumeClaim sem claim w).trace := by
    simp only [Consumer.ConsumeClaim]
    induction claim generalizing w with
    | nil => rfl
    | cons m rest ih =>
      simp [consumeMessages, errorLogs, failures, errorLogs_append, failures_append,
        runCallbacks_logs, ih]
  have hinv : invocations (consumer.ConsumeClaim sem claim w).trace =
      claim.flatMap
        (fun m => (consumer.CallbackFunctions.get m.Topic).map (fun h => (h, m.Value))) :=
    consumeMessages_invocations sem consumer claim w
  obtain ⟨r1, r2, r3, r4⟩ := consumeMessages_results sem consumer claim w
  exact ⟨rfl, r1, r2, r4, hlogs, hinv, r3⟩

/-- Scenario S4: the callback `1` fails and the callback `2` succeeds on one
message.  Both are invoked, `Log.Error` is called once, with the failure of
`1`, right after the invocation of `1`, and `ConsumeClaim` returns `nil`. -/
theorem ConsumeClaim_absorbs_failures_witness :
    (sampleKafkaTwo.newConsumer.1.ConsumeClaim sampleSemFailing [sampleM4] ()).err = none ∧
    errorLogs (sampleKafkaTwo.newConsumer.1.ConsumeClaim sampleSemFailing [sampleM4] ()).trace =
      [GoError.other "boom"] ∧
    (sampleKafkaTwo.newConsumer.1.ConsumeClaim sampleSemFailing [sampleM4] ()).trace =
      [Effect.markMessage sampleM4,
        Effect.callback 1 [100] (some (GoError.other "boom")),
        Effect.logError (GoError.other "boom"),
        Effect.callback 2 [100] none] :=
  ⟨(ConsumeClaim_absorbs_failures sampleSemFailing sampleKafkaTwo.newConsumer.1
      [sampleM4] ()).1,
    (ConsumeClaim_absorbs_failures sampleSemFailing sampleKafkaTwo.newConsumer.1
      [sampleM4] ()).2.2.1.trans (by decide),
    by decide⟩

/-! ## The dispatch-loop claims -/

/-- Claim C7, as stated, fails.  On the script of scenario S3 (two sessions
ended by a rebalance, then the context is cancelled and `Consume` returns the
cancellation failure) the loop calls `Consume` three times and the callback
sees the two messages in order, but the loop does not exit cleanly: the third
return is a failure and the loop panics with it. -/
theorem dispatchLoop_cancellation_failure_is_fatal :
    (dispatchLoop sampleSem sampleKafka (sampleRebalances ++ [sampleCancelled])
        sampleKafka.newConsumer.1 sampleKafka.newConsumer.2 ()).status ≠ LoopStatus.exited ∧
    (dispatchLoop sampleSem sampleKafka (sampleRebalances ++ [sampleCancelled])
        sampleKafka.newConsumer.1 sampleKafka.newConsumer.2 ()).status =
      LoopStatus.panicked (Panic.errorFromConsumer GoError.contextCanceled) ∧
    consumeCount (dispatchLoop sampleSem sampleKafka (sampleRebalances ++ [sampleCancelled])
        sampleKafka.newConsumer.1 sampleKafka.newConsumer.2 ()).trace = 3 ∧
    invocations (dispatchLoop sampleSem sampleKafka (sampleRebalances ++ [sampleCancelled])
        sampleKafka.newConsumer.1 sampleKafka.newConsumer.2 ()).trace =
      [(1, [97]), (1, [98])] := by
  decide

/-- Claim C7, amended.  The dispatch loop started by `Listen` aborts on every
failure returned by `Consume`, the cancellation failure included and whether
or not the context is cancelled.  For every script in which `Consume` returns
`nil` `k` times while the context is not cancelled (the group client calling
`Setup` at most once per call): when the next call returns a failure, or
returns `nil` with the context cancelled, the loop has called `Consume`
exactly `k + 1` times, it panics with the returned failure in the first case
and exits cleanly in the second, and the callbacks have been invoked for
exactly the messages of these `k + 1` calls, in order; and as long as there is
no such call the loop neither exits nor panics: after the `k` returns it is
inside its next `Consume` call. -/
theorem dispatchLoop_exits_or_aborts {H W : Type} (sem : CallbackSem H W) (l : Kafka H)
    (pre : List ConsumeCall) (last : ConsumeCall) (rest : List ConsumeCall) (w : W)
    (hpre : ∀ c ∈ pre, c.err = none ∧ c.ctxErr = false ∧ c.setups ≤ 1)
    (hsetups : last.setups ≤ 1) (hctx : last.err = none → last.ctxErr = true) :
    consumeCount (dispatchLoop sem l (pre ++ last :: rest)
        l.newConsumer.1 l.newConsumer.2 w).trace = pre.length + 1 ∧
    (dispatchLoop sem l (pre ++ last :: rest) l.newConsumer.1 l.newConsumer.2 w).status =
      (match last.err with
       | none => LoopStatus.exited
       | some e => LoopStatus.panicked (Panic.errorFromConsumer e)) ∧
    invocations (dispatchLoop sem l (pre ++ last :: rest)
        l.newConsumer.1 l.newConsumer.2 w).trace =
      ((pre ++ [last]).flatMap ConsumeCall.messages).flatMap
        (expectedCalls l.CallbackFunctions) ∧
    consumeCount (dispatchLoop sem l pre l.newConsumer.1 l.newConsumer.2 w).trace =
      pre.length + 1 ∧
    (dispatchLoop sem l pre l.newConsumer.1 l.newConsumer.2 w).status = LoopStatus.blocked := by
  have hlt : l.newConsumer.1.ready < l.newConsumer.2.length := by
    simp [Kafka.newConsumer, ChanHeap.make]
  have hopen : l.newConsumer.2.isClosed l.newConsumer.1.ready = false := by
    simp [Kafka.newConsumer, ChanHeap.make, ChanHeap.isClosed]
  obtain ⟨h1, h2, h3⟩ := dispatchLoop_normal_returns sem l pre last rest l.newConsumer.1
    l.newConsumer.2 w hlt hopen hpre hsetups hctx
  obtain ⟨b1, b2, _⟩ := dispatchLoop_blocked sem l pre l.newConsumer.1 l.newConsumer.2 w
    hlt hopen hpre
  exact ⟨h1, h2, h3, b1, b2⟩

/-- Scenario S3 with a third `Consume` that returns `nil` after the
cancellation: three `Consume` calls, the callback sees the two messages in
order, and the loop exits cleanly.  Scenario S6, a first `Consume` that fails
while the context is not cancelled: one `Consume` call and a panic. -/
theorem dispatchLoop_exits_or_aborts_witness :
    (∀ c ∈ sampleRebalances, c.err = none ∧ c.ctxErr = false ∧ c.setups ≤ 1) ∧
    sampleStopped.setups ≤ 1 ∧ (sampleStopped.err = none → sampleStopped.ctxErr = true) ∧
    consumeCount (dispatchLoop sampleSem sampleKafka (sampleRebalances ++ sampleStopped :: [])
        sampleKafka.newConsumer.1 sampleKafka.newConsumer.2 ()).trace = 3 ∧
    (dispatchLoop sampleSem sampleKafka (sampleRebalances ++ sampleStopped :: [])
        sampleKafka.newConsumer.1 sampleKafka.newConsumer.2 ()).status = LoopStatus.exited ∧
    invocations (dispatchLoop sampleSem sampleKafka (sampleRebalances ++ sampleStopped :: [])
        sampleKafka.newConsumer.1 sampleKafka.newConsumer.2 ()).trace =
      [(1, [97]), (1, [98])] ∧
    sampleBroken.ctxErr = false ∧
    consumeCount (dispatchLoop sampleSem sampleKafka ([] ++ sampleBroken :: [])
        sampleKafka.newConsumer.1 sampleKafka.newConsumer.2 ()).trace = 1 ∧
    (dispatchLoop sampleSem sampleKafka ([] ++ sampleBroken :: [])
        sampleKafka.newConsumer.1 sampleKafka.newConsumer.2 ()).status =
      LoopStatus.panicked (Panic.errorFromConsumer (GoError.other "no brokers")) :=
  ⟨by decide, by decide, fun _ => rfl,
    (dispatchLoop_exits_or_aborts sampleSem sampleKafka sampleRebalances sampleStopped [] ()
      (by decide) (by decide) (fun _ => rfl)).1,
    (dispatchLoop_exits_or_aborts sampleSem sampleKafka sampleRebalances sampleStopped [] ()
      (by decide) (by decide) (fun _ => rfl)).2.1,
    (dispatchLoop_exits_or_aborts sampleSem sampleKafka sampleRebalances sampleStopped [] ()
      (by decide) (by decide) (fun _ => rfl)).2.2.1.trans (by decide),
    rfl,
    (dispatchLoop_exits_or_aborts sampleSem sampleKafka [] sampleBroken [] ()
      (by decide) (by decide) (by decide)).1,
    (dispatchLoop_exits_or_aborts sampleSem sampleKafka [] sampleBroken [] ()
      (by decide) (by decide) (by decide)).2.1⟩

/-- Claim C10.  In every run of the dispatch loop started by `Listen` in which
the group client calls `Setup` at most once per `Consume` invocation, `Setup`
never closes a closed channel (the loop does not panic with "close of closed
channel" and no channel is closed twice), and the `ready` channel the handler
holds when a `Consume` call begins has neither been closed before nor been
held at an earlier `Consume` call: after a return without failure and without
cancellation the next call starts on a new, open channel. -/
theorem ready_latch_signalled_once {H W : Type} (sem : CallbackSem H W) (l : Kafka H)
    (script : List ConsumeCall) (w : W) (hs : ∀ c ∈ script, c.setups ≤ 1) :
    (dispatchLoop sem l script l.newConsumer.1 l.newConsumer.2 w).status ≠
      LoopStatus.panicked Panic.closeOfClosedChannel ∧
    (closedChans (dispatchLoop sem l script l.newConsumer.1 l.newConsumer.2 w).trace).Nodup ∧
    (∀ pre topics ch post,
      (dispatchLoop sem l script l.newConsumer.1 l.newConsumer.2 w).trace =
        pre ++ Effect.consume topics ch :: post →
      ch ∉ closedChans pre ∧ ch ∉ consumeChans pre) :=
  dispatchLoop_latches sem l script l.newConsumer.1 l.newConsumer.2 w
    (by simp [Kafka.newConsumer, ChanHeap.make])
    (by simp [Kafka.newConsumer, ChanHeap.make, ChanHeap.isClosed])
    hs

/-- The run of scenario S3: one `Setup` per session, three `Consume` calls. -/
theorem ready_latch_signalled_once_witness :
    (∀ c ∈ sampleRebalances ++ [sampleStopped], c.setups ≤ 1) ∧
    (dispatchLoop sampleSem sampleKafka (sampleRebalances ++ [sampleStopped])
        sampleKafka.newConsumer.1 sampleKafka.newConsumer.2 ()).status ≠
      LoopStatus.panicked Panic.closeOfClosedChannel ∧
    (closedChans (dispatchLoop sampleSem sampleKafka (sampleRebalances ++ [sampleStopped])
        sampleKafka.newConsumer.1 sampleKafka.newConsumer.2 ()).trace).Nodup ∧
    (∀ pre topics ch post,
      (dispatchLoop sampleSem sampleKafka (sampleRebalances ++ [sampleStopped])
          sampleKafka.newConsumer.1 sampleKafka.newConsumer.2 ()).trace =
        pre ++ Effect.consume topics ch :: post →
      ch ∉ closedChans pre ∧ ch ∉ consumeChans pre) :=
  ⟨by decide,
    ready_latch_signalled_once sampleSem sampleKafka (sampleRebalances ++ [sampleStopped]) ()
      (by decide)⟩

/-- When the group client calls `Setup` twice during one `Consume`, the second
call closes a closed channel and the process panics. -/
theorem dispatchLoop_double_setup_panics :
    (dispatchLoop sampleSem sampleKafka
        [{ calls := [HandlerCall.setup, HandlerCall.setup], err := none, ctxErr := false }]
        sampleKafka.newConsumer.1 sampleKafka.newConsumer.2 ()).status =
      LoopStatus.panicked Panic.closeOfClosedChannel := by
  decide

/-! ## The `Listen` claims -/

/-- Claim C8, as stated, fails.  A signal delivered before the `ready` channel
is closed reaches a process that has not called `signal.Notify` yet.  With the
default disposition the process is terminated: `Listen` has started the
goroutine and done nothing else.  In a process that ignores the signal it is
lost: `Listen` goes on to the `select` and waits there.  In both cases
`cancel()` and `Close()` are not called. -/
theorem Listen_signal_before_ready_not_observed :
    (sampleKafka.Listen sampleEnv sampleSem [ListenEvent.signal, ListenEvent.readyClosed]
        sampleRebalances ()).main.pc = ListenPc.terminatedBySignal ∧
    (sampleKafka.Listen sampleEnv sampleSem [ListenEvent.signal, ListenEvent.readyClosed]
        sampleRebalances ()).main.trace = [Effect.spawnLoop] ∧
    (sampleKafka.Listen sampleEnvIgnoring sampleSem
        [ListenEvent.signal, ListenEvent.readyClosed] sampleRebalances ()).main.pc =
      ListenPc.awaitShutdown ∧
    (sampleKafka.Listen sampleEnvIgnoring sampleSem
        [ListenEvent.signal, ListenEvent.readyClosed] sampleRebalances ()).main.trace =
      [Effect.spawnLoop, Effect.logReady ["broker:9092"], Effect.notifySignals] ∧
    Effect.cancel ∉ (sampleKafka.Listen sampleEnv sampleSem
        [ListenEvent.signal, ListenEvent.readyClosed] sampleRebalances ()).main.trace ∧
    Effect.close ∉ (sampleKafka.Listen sampleEnv sampleSem
        [ListenEvent.signal, ListenEvent.readyClosed] sampleRebalances ()).main.trace ∧
    Effect.cancel ∉ (sampleKafka.Listen sampleEnvIgnoring sampleSem
        [ListenEvent.signal, ListenEvent.readyClosed] sampleRebalances ()).main.trace ∧
    Effect.close ∉ (sampleKafka.Listen sampleEnvIgnoring sampleSem
        [ListenEvent.signal, ListenEvent.readyClosed] sampleRebalances ()).main.trace := by
  decide

/-- Claim C8, amended.  `Listen` waits for the `ready` channel first and
subscribes to the signals afterwards.  In every run in which the group client
can be built: the effects of `Listen` come in the order start of the
goroutine, log line, `signal.Notify`, log line, `cancel()`, `Close()`;
`cancel()` is called only if a signal was delivered after the `ready` channel
had been closed by `Setup`, so a signal delivered before that is not observed;
`Close()` is called only after `cancel()` and after the goroutine has
returned, so `Listen` waits for the dispatch loop.  And for every event script
in which a signal is delivered after the `ready` channel was closed (signals
before that being absent, or ignored by the process) and the goroutine returns
afterwards, `Listen` performs the whole orderly shutdown and then returns, or
panics when `Close()` fails. -/
theorem Listen_shutdown_on_signal_after_ready {H W : Type} (env : ListenEnv)
    (sem : CallbackSem H W) (l : Kafka H) (events : List ListenEvent)
    (script : List ConsumeCall) (w : W) (hnew : env.newListenerErr = none) :
    (l.Listen env sem events script w).main.trace <+:
      [Effect.spawnLoop, Effect.logReady l.Option.Host, Effect.notifySignals,
        Effect.logViaSignal, Effect.cancel, Effect.close] ∧
    (Effect.cancel ∈ (l.Listen env sem events script w).main.trace →
      (∃ pre post, events = pre ++ ListenEvent.signal :: post ∧
        ListenEvent.readyClosed ∈ pre) ∧
      l.newConsumer.1.ready ∈
        closedChans (dispatchLoop sem l script l.newConsumer.1 l.newConsumer.2 w).trace) ∧
    (Effect.close ∈ (l.Listen env sem events script w).main.trace →
      Effect.cancel ∈ (l.Listen env sem events script w).main.trace ∧
      ListenEvent.loopDone ∈ events ∧
      (dispatchLoop sem l script l.newConsumer.1 l.newConsumer.2 w).status =
        LoopStatus.exited) ∧
    (∀ pre mid post rest : List ListenEvent,
      events = pre ++ ListenEvent.readyClosed :: (mid ++ ListenEvent.signal ::
        (post ++ ListenEvent.loopDone :: rest)) →
      (∀ ev ∈ pre, ev ≠ ListenEvent.readyClosed ∧
        (ev = ListenEvent.signal → env.unsubscribed = Disposition.ignore)) →
      l.newConsumer.1.ready ∈
        closedChans (dispatchLoop sem l script l.newConsumer.1 l.newConsumer.2 w).trace →
      (dispatchLoop sem l script l.newConsumer.1 l.newConsumer.2 w).status =
        LoopStatus.exited →
      (l.Listen env sem events script w).main.trace =
        [Effect.spawnLoop, Effect.logReady l.Option.Host, Effect.notifySignals,
          Effect.logViaSignal, Effect.cancel, Effect.close] ∧
      (l.Listen env sem events script w).main.pc =
        (match env.closeErr with
         | none => ListenPc.returned
         | some e => ListenPc.panicked (Panic.errorClosingClient e))) := by
  have hmain : (l.Listen env sem events script w).main =
      (ListenState.start H).run env l
        ((dispatchLoop sem l script l.newConsumer.1 l.newConsumer.2 w).facts
          l.newConsumer.1.ready) events := by
    simp only [Kafka.Listen, hnew]
  rw [hmain]
  have hg := ListenState.run_grounded env l
    ((dispatchLoop sem l script l.newConsumer.1 l.newConsumer.2 w).facts l.newConsumer.1.ready)
    events (ListenState.start H) [] (ListenState.start_grounded _)
  have ho := ListenState.run_ordered env l
    ((dispatchLoop sem l script l.newConsumer.1 l.newConsumer.2 w).facts l.newConsumer.1.ready)
    events (ListenState.start H) (ListenState.start_ordered l)
  simp only [ListenState.grounded, List.nil_append] at hg
  obtain ⟨_, g2, _, g4, g5, _⟩ := hg
  simp only [ListenState.ordered] at ho
  obtain ⟨_, _, _, o4⟩ := ho
  refine ⟨o4, ?_, ?_, ?_⟩
  · intro hc
    obtain ⟨hsplit, hf⟩ := g4 (Or.inr hc)
    refine ⟨hsplit, ?_⟩
    simpa [LoopResult.facts] using hf
  · intro hc
    obtain ⟨hd, hx⟩ := g2 (g5 hc)
    refine ⟨shutdown_prefix_cancel _ _ o4 hc, hd, ?_⟩
    simpa [LoopResult.facts] using hx
  · intro pre mid post rest hev hpre hready hexit
    have hr : ((dispatchLoop sem l script l.newConsumer.1 l.newConsumer.2 w).facts
        l.newConsumer.1.ready).readyClosed = true := by
      simpa [LoopResult.facts] using hready
    have hx : ((dispatchLoop sem l script l.newConsumer.1 l.newConsumer.2 w).facts
        l.newConsumer.1.ready).exited = true := by
      simpa [LoopResult.facts] using hexit
    have hp : ((dispatchLoop sem l script l.newConsumer.1 l.newConsumer.2 w).facts
        l.newConsumer.1.ready).panicked = false := by
      simp [LoopResult.facts, hexit]
    have h := ListenState.run_shutdown env l _ hr hx hp pre mid post rest hpre
    rw [← hev] at h
    simp only [ListenState.inPhase, ListenEnv.afterClose] at h
    exact ⟨h.2, h.1⟩

/-- Scenario S5 on the run of scenario S3: `Setup` closes the `ready` channel,
then a signal is delivered, then the goroutine returns.  `Listen` logs,
subscribes, logs, cancels, closes the group client and returns. -/
theorem Listen_shutdown_on_signal_after_ready_witness :
    sampleEnv.newListenerErr = none ∧
    (sampleKafka.Listen sampleEnv sampleSem
        [ListenEvent.readyClosed, ListenEvent.signal, ListenEvent.loopDone]
        (sampleRebalances ++ [sampleStopped]) ()).main.trace =
      [Effect.spawnLoop, Effect.logReady ["broker:9092"], Effect.notifySignals,
        Effect.logViaSignal, Effect.cancel, Effect.close] ∧
    (sampleKafka.Listen sampleEnv sampleSem
        [ListenEvent.readyClosed, ListenEvent.signal, ListenEvent.loopDone]
        (sampleRebalances ++ [sampleStopped]) ()).main.pc = ListenPc.returned :=
  ⟨rfl,
    (Listen_shutdown_on_signal_after_ready sampleEnv sampleSem sampleKafka
      [ListenEvent.readyClosed, ListenEvent.signal, ListenEvent.loopDone]
      (sampleRebalances ++ [sampleStopped]) () rfl).2.2.2 [] [] [] [] rfl (by simp)
      (by decide) (by decide)⟩

/-- Without the return of the goroutine `Listen` does not close the group
client: after the signal it has called `cancel()` and waits in `wg.Wait()`,
also when a `loopDone` event is delivered in a run whose goroutine is still
inside `Consume`. -/
theorem Listen_waits_for_the_loop :
    (sampleKafka.Listen sampleEnv sampleSem [ListenEvent.readyClosed, ListenEvent.signal]
        (sampleRebalances ++ [sampleStopped]) ()).main.pc = ListenPc.awaitLoop ∧
    (sampleKafka.Listen sampleEnv sampleSem [ListenEvent.readyClosed, ListenEvent.signal]
        (sampleRebalances ++ [sampleStopped]) ()).main.trace =
      [Effect.spawnLoop, Effect.logReady ["broker:9092"], Effect.notifySignals,
        Effect.logViaSignal, Effect.cancel] ∧
    (sampleKafka.Listen sampleEnv sampleSem
        [ListenEvent.readyClosed, ListenEvent.signal, ListenEvent.loopDone]
        sampleRebalances ()).main.pc = ListenPc.awaitLoop := by
  decide

/-- Claim C9.  When `l.NewListener()` fails, `Listen` returns without a panic
and without any effect: the goroutine is not started, so `Consume` is never
called and no callback runs, `Close()` is not called and nothing is logged,
whatever happens around the process. -/
theorem Listen_returns_when_factory_fails {H W : Type} (env : ListenEnv) (e : GoError)
    (sem : CallbackSem H W) (l : Kafka H) (events : List ListenEvent)
    (script : List ConsumeCall) (w : W) :
    (l.Listen { env with newListenerErr := some e } sem events script w).main.pc =
      ListenPc.returned ∧
    (l.Listen { env with newListenerErr := some e } sem events script w).main.trace = [] ∧
    (l.Listen { env with newListenerErr := some e } sem events script w).loop.isNone = true ∧
    (l.Listen { env with newListenerErr := some e } sem events script w).effects = [] := by
  simp [Kafka.Listen, ListenRun.effects]

end KafkaSarama
